import Mathlib

/-!
Shallow embedding of the DocBook generator of qdoc (docbookgenerator.cpp):
the atom-stream interpreter `generateAtomList`/`generateAtom`, the section
stack, the list/table state machines, and the XML stream writer modelled as
a list of emitted write calls.  Helpers that live in the external base
`Generator`/`Doc` classes (not part of this file's source) are modelled from
the specification and marked as such in their doc comments.
-/

namespace DocBook

/-- Status of a documentation node (Node::Status). -/
inductive NStatus where
  | active
  | preliminary
  | deprecated
  | obsolete
  | internalStatus
deriving DecidableEq

/-- Kind of a documentation node (Node::NodeType), restricted to the kinds
the interpreter branches on. -/
inductive NType where
  | enumT
  | classT
  | qmlTypeT
  | pageT
  | otherT
deriving DecidableEq

/-- Attributes of one documentation node, without its parent chain. -/
structure NodeData where
  name : String := ""
  status : NStatus := .active
  ntype : NType := .otherT
  /-- Literal values recorded for an enumeration's identifiers
  (EnumNode::itemValue); empty result means no recorded value. -/
  enumValues : List (String × String) := []
  /-- Source location of the originating documentation comment
  (Node::doc().location()). -/
  docLocation : String := ""
deriving DecidableEq

/-- A documentation node together with its chain of ancestors (nearest
parent first).  The C++ code reaches the parent through a pointer; the chain
encoding keeps the walk structurally recursive. -/
structure Node where
  data : NodeData
  ancestors : List NodeData := []
deriving DecidableEq

def Node.parent (n : Node) : Option Node :=
  match n.ancestors with
  | [] => none
  | p :: rest => some ⟨p, rest⟩

def Node.status (n : Node) : NStatus := n.data.status

def Node.ntype (n : Node) : NType := n.data.ntype

/-- EnumNode::itemValue: the literal value recorded for an identifier, or
the empty string when none is recorded. -/
def itemValue (n : Node) (name : String) : String :=
  ((n.data.enumValues.find? fun p => p.1 == name).map (·.2)).getD ""

/-- Kinds of atoms (Atom::Type), restricted to the kinds this embedding
interprets. -/
inductive AKind where
  | autoLink
  | navAutoLink
  | c
  | formatIf
  | formatElse
  | formatEndif
  | formattingLeft
  | formattingRight
  | link
  | navLink
  | listLeft
  | listItemNumber
  | listTagLeft
  | listTagRight
  | sinceTagRight
  | listItemLeft
  | listItemRight
  | listRight
  | nop
  | paraLeft
  | paraRight
  | rawString
  | sectionLeft
  | sectionRight
  | sectionHeadingLeft
  | sectionHeadingRight
  | string
  | tableLeft
  | tableRight
  | tableHeaderLeft
  | tableHeaderRight
  | tableRowLeft
  | tableRowRight
  | tableItemLeft
  | tableItemRight
  | target
  | unhandledFormat
deriving DecidableEq

/-- One atom of the markup-instruction stream.  `args` are the associated
strings (Atom::string(i)); the sequence's `next` pointer becomes the tail of
the surrounding list. -/
structure Atom where
  typ : AKind
  args : List String := []
deriving DecidableEq

/-- Atom::string(): the first associated string. -/
def Atom.string (a : Atom) : String := a.args.headD ""

/-- One call to the XML stream writer.  `endElem` carries the element the
source comment at the call site says the call closes (QXmlStreamWriter's
writeEndElement itself is untyped and closes the innermost open element);
`emptyElem` is writeEmptyElement, an open and a close in one call. -/
inductive Event where
  | startElem (name : String)
  | endElem (name : String)
  | emptyElem (name : String)
  | attr (key value : String)
  | chars (s : String)
deriving DecidableEq

/-- The manual newline written after structurally significant elements. -/
def nl : Event := .chars "\n"

/-- External collaborators of the interpreter, modelled from the spec: the
anchor/reference resolver and the configurable section offset.  They live in
the base Generator class, outside this file's source. -/
structure Env where
  /-- Modelled from the spec: the configurable offset added to a declared
  section level (Generator::hOffset). -/
  hOffset : Node → Int
  /-- Modelled from the spec: resolution of an auto-link target name to a
  link string and, when found, the target node (Generator::getAutoLink).
  An empty link string means the target did not resolve. -/
  getAutoLink : String → Node → String × Option Node
  /-- Modelled from the spec: resolution of an explicit link atom
  (Generator::getLink). -/
  getLink : String → Node → String × Option Node
  /-- Modelled from the spec: the document-relative or cross-document link
  target string for a node (Generator::linkForNode). -/
  linkForNode : Node → Node → String

/-- The generator's mutable state: the writer's emitted calls plus every
flag the interpreter reads or writes.  `inPara` is a function-local static
of generateAtom in the source, hence process-wide: nothing in the
per-document or per-text initialisation can reset it. -/
structure GState where
  events : List Event := []
  inPara : Bool := false
  inLink : Bool := false
  inContents : Bool := false
  inSectionHeading : Bool := false
  inTableHeader : Bool := false
  threeColumnEnumValueTable : Bool := true
  inListItemLineOpen : Bool := false
  currentSectionLevel : Int := 0
  sectionLevels : List Int := []
  numTableRows : Nat := 0
  /-- The registry of already-used anchor identifiers (Generator::refMap,
  filled by registerRef).  Kept in the state to record whether the
  interpreter's anchor emissions ever touch it. -/
  refMap : List (String × String) := []
  /-- Non-fatal warnings reported so far: source location and message. -/
  warnings : List (String × String) := []
deriving DecidableEq

/-- Appends writer calls to the emitted stream. -/
def emit (st : GState) (evs : List Event) : GState :=
  { st with events := st.events ++ evs }

/-- Accumulates a decimal digit run; none when a non-digit appears. -/
def digitsAcc : List Char → Nat → Option Nat
  | [], acc => some acc
  | c :: cs, acc =>
    if c.isDigit then digitsAcc cs (acc * 10 + (c.toNat - Char.toNat '0')) else none

/-- QString::toInt: the parsed (optionally negated) decimal integer, 0 when
the string does not parse as one. -/
def qToInt (s : String) : Int :=
  match s.toList with
  | [] => 0
  | '-' :: rest =>
    match rest with
    | [] => 0
    | _ => -(Int.ofNat ((digitsAcc rest 0).getD 0))
  | cs => Int.ofNat ((digitsAcc cs 0).getD 0)

/-- Modelled from the spec: Doc::canonicalTitle, the canonical anchor
identifier derived from a title (lower-cased, punctuation-normalized). -/
def canonicalTitle (s : String) : String :=
  String.mk (s.toList.map fun c => if c.isAlphanum then c.toLower else '-')

/-- Modelled from the spec: Text::sectionHeading, the heading text that
follows a section-begin atom (the strings between the next
section-heading-begin/end pair). -/
def sectionHeadingStr (rest : List Atom) : String :=
  String.join ((((rest.dropWhile fun x => x.typ ≠ .sectionHeadingLeft).drop 1).takeWhile
    fun x => x.typ ≠ .sectionHeadingRight).map (·.string))

/-- Modelled from the spec: Generator::isThreeColumnEnumValueTable, the
pre-scan of a value list's atoms that detects the three-column flag: true
when some list item is not immediately followed by its end marker (i.e. has
a non-empty description) before the closing list-end atom. -/
def isThreeColumnEnumValueTable : List Atom → Bool
  | [] => false
  | a :: rest =>
    if a.typ = .listRight ∧ a.string = "value" then false
    else if a.typ = .listItemLeft ∧ rest.head?.map (·.typ) ≠ some AKind.listItemRight then true
    else isThreeColumnEnumValueTable rest

/-- Modelled from the spec: Generator::getAtomListValue, the term text of a
value-list entry and the number of following atoms it consumes (the cursor
is left on the list-tag-end atom, whose handler is a no-op for value
lists). -/
def getAtomListValue (rest : List Atom) : String × Nat :=
  match rest with
  | [] => ("", 1)
  | h :: t =>
    let more := t.takeWhile fun x => x.typ ≠ .listTagRight
    (h.string ++ String.join (more.map (·.string)), 1 + more.length)

/-- Modelled from the spec: the width/style attribute pair carried by a
table-begin atom (Generator::getTableWidthAttr); the parsing of the raw
attribute string is external to this file's source. -/
def getTableWidthAttr (a : Atom) : String × String := ("", a.string)

/-- Splits a character list at every occurrence of a separator character,
keeping empty groups (QString::split with a one-character separator). -/
def splitChar (sep : Char) : List Char → List (List Char)
  | [] => [[]]
  | c :: cs =>
    match splitChar sep cs with
    | [] => [[]]
    | g :: gs => if c = sep then [] :: g :: gs else (c :: g) :: gs

/-- QString::split on a one-character separator. -/
def qSplit (s : String) (sep : Char) : List String :=
  (splitChar sep s.toList).map String.mk

/-- QString::contains for a single character. -/
def qContains (s : String) (c : Char) : Bool := s.toList.contains c

/-- CodeMarker::taggedNode as reimplemented in the source: strips a "QML:"
prefix from QML type names. -/
def taggedNode (n : Node) : String :=
  if n.data.ntype = .qmlTypeT ∧ n.data.name.toList.take 4 = ['Q', 'M', 'L', ':'] then
    String.mk (n.data.name.toList.drop 4)
  else n.data.name

/-- DocBookGenerator::endLink: closes the link element when one is open;
closing when not open is a safe no-op. -/
def endLink (st : GState) : GState :=
  let st := if st.inLink then emit st [.endElem "link"] else st
  { st with inLink := false }

/-- DocBookGenerator::beginLink: opens a link element, adding the obsolete
role when the target's status is obsolete and differs from the context's. -/
def beginLink (link : String) (node : Option Node) (relative : Node) (st : GState) : GState :=
  let st := emit st [.startElem "link", .attr "href" link]
  let st :=
    match node with
    | some n => if ¬(n.status = relative.status) ∧ n.status = NStatus.obsolete
        then emit st [.attr "role" "obsolete"] else st
    | none => st
  { st with inLink := true }

/-- Position of the first "(" preceded by a non-space character (the
funcLeftParen regular expression of DocBookGenerator::generateLink). -/
def funcParenPos (s : String) : Option Nat :=
  (List.range s.toList.length).find? fun k =>
    decide (1 ≤ k) && (s.toList.getD k ' ' == '(')
      && !((s.toList.getD (k - 1) ' ').isWhitespace)

/-- DocBookGenerator::generateLink: writes the link text, moving a trailing
"(...)" part of a function name outside the link element. -/
def generateLink (a : Atom) (st : GState) : GState :=
  match funcParenPos a.string with
  | some k =>
    let st := emit st [.chars (String.mk (a.string.toList.take k)), .endElem "link"]
    let st := { st with inLink := false }
    emit st [.chars (String.mk (a.string.toList.drop k))]
  | none => emit st [.chars a.string]

/-- Atom::AutoLink / Atom::NavAutoLink handler: resolves the target, clears
the link when the target is obsolete, the context is not obsolete and the
target is not the context's parent, then emits either plain text or a
link. -/
def doAutoLink (env : Env) (a : Atom) (relative : Node) (st : GState) : GState :=
  if ¬st.inLink ∧ ¬st.inContents ∧ ¬st.inSectionHeading then
    let r := env.getAutoLink a.string relative
    let link :=
      match r.2 with
      | some node =>
        if r.1 ≠ "" ∧ node.status = NStatus.obsolete ∧ relative.parent ≠ some node
            ∧ ¬(relative.status = NStatus.obsolete)
        then "" else r.1
      | none => r.1
    if link = "" then emit st [.chars a.string]
    else endLink (generateLink a (beginLink link r.2 relative st))
  else emit st [.chars a.string]

/-- Atom::FormattingLeft handler (ATOM_FORMATTING_* string values). -/
def doFormattingLeft (a : Atom) (st : GState) : GState :=
  if a.string = "bold" then emit st [.startElem "emphasis", .attr "role" "bold"]
  else if a.string = "italic" then emit st [.startElem "emphasis"]
  else if a.string = "underline" then emit st [.startElem "emphasis", .attr "role" "underline"]
  else if a.string = "subscript" then emit st [.startElem "sub"]
  else if a.string = "superscript" then emit st [.startElem "sup"]
  else if a.string = "teletype" then emit st [.startElem "code"]
  else if a.string = "parameter" then emit st [.startElem "code", .attr "role" "parameter"]
  else st

/-- The formatting-close if-chain of the FormattingRight handler. -/
def doFormattingRightBase (a : Atom) (st : GState) : GState :=
  if a.string = "bold" ∨ a.string = "italic" ∨ a.string = "underline" then
    emit st [.endElem "emphasis"]
  else if a.string = "subscript" then emit st [.endElem "sub"]
  else if a.string = "superscript" then emit st [.endElem "sup"]
  else if a.string = "teletype" ∨ a.string = "parameter" then emit st [.endElem "code"]
  else st

/-- Atom::FormattingRight handler. -/
def doFormattingRight (a : Atom) (st : GState) : GState :=
  if a.string = "link" then endLink (doFormattingRightBase a st)
  else doFormattingRightBase a st

/-- Writer calls of writeTextElement for a table header cell. -/
def thTextEvents (s : String) : List Event := [.startElem "th", .chars s, .endElem "th"]

/-- The shared close-the-open-paragraph step of the list-begin and
table-begin handlers. -/
def closeOpenPara (st : GState) : GState :=
  if st.inPara then { (emit st [.endElem "para", nl]) with inPara := false } else st

/-- The list-kind dispatch of the ListLeft handler, after the open
paragraph has been closed. -/
def doListLeftKind (a : Atom) (rest : List Atom) (relative : Node) (st : GState) : GState :=
  if a.string = "bullet" then emit st [.startElem "itemizedlist", nl]
  else if a.string = "tag" then emit st [.startElem "variablelist", nl]
  else if a.string = "value" then
    let st := emit st ([.startElem "informaltable", nl, .startElem "thead", nl,
      .startElem "tr", nl] ++ thTextEvents "Constant" ++ [nl])
    let st := { st with threeColumnEnumValueTable := isThreeColumnEnumValueTable (a :: rest) }
    let st := if st.threeColumnEnumValueTable ∧ relative.ntype = NType.enumT
      then emit st (thTextEvents "Value" ++ [nl]) else st
    emit st (thTextEvents "Description" ++ [nl, .endElem "tr", nl, .endElem "thead", nl])
  else
    let st := emit st [.startElem "orderedlist"]
    let st :=
      match rest.head? with
      | some nxt => if qToInt nxt.string > 1 then emit st [.attr "startingnumber" nxt.string] else st
      | none => st
    let st :=
      if a.string = "upperalpha" then emit st [.attr "numeration" "upperalpha"]
      else if a.string = "loweralpha" then emit st [.attr "numeration" "loweralpha"]
      else if a.string = "upperroman" then emit st [.attr "numeration" "upperroman"]
      else if a.string = "lowerroman" then emit st [.attr "numeration" "lowerroman"]
      else emit st [.attr "numeration" "arabic"]
    emit st [nl]

/-- Atom::ListLeft handler: dispatches on the list kind string; the value
kind opens a table and emits the header row, computing the three-column
flag by pre-scanning the list's atoms. -/
def doListLeft (a : Atom) (rest : List Atom) (relative : Node) (st : GState) : GState :=
  doListLeftKind a rest relative (closeOpenPara st)

/-- Walk collecting the qualifying parents of an enumeration value
(DocBookGenerator::generateEnumValue): climbs from the context's parent,
prepending, until the root or the context itself is reached. -/
def enumParentsWalk (relative : Node) (node : Node) (acc : List Node) : List Node :=
  match h : node.parent with
  | none => acc
  | some p =>
    if p = relative ∨ p.data.name = "" then node :: acc
    else enumParentsWalk relative p (node :: acc)
termination_by node.ancestors.length
decreasing_by
  simp only [Node.parent] at h
  cases hn : node.ancestors with
  | nil => rw [hn] at h; cases h
  | cons x xs => rw [hn] at h; cases h; simp [hn]

/-- The qualifying parents of an enumeration value, outermost first.  The
C++ walk dereferences a null parent when the context has none; such
contexts contribute no qualification here. -/
def enumValueQualifier (relative : Node) : List Node :=
  match relative.parent with
  | none => []
  | some start => enumParentsWalk relative start []

/-- DocBookGenerator::generateSynopsisName with generateNameLink = true, as
called from generateEnumValue. -/
def synopsisNameEvents (env : Env) (node relative : Node) : List Event :=
  [.startElem "emphasis", .attr "role" "bold",
   .startElem "link", .attr "href" (env.linkForNode node relative),
   .chars (taggedNode node), .endElem "link", .endElem "emphasis"]

/-- DocBookGenerator::generateEnumValue: plain text for non-enumeration
contexts, otherwise a code element holding the qualified identifier. -/
def generateEnumValueEvents (env : Env) (enumValue : String) (relative : Node) : List Event :=
  if ¬(relative.ntype = NType.enumT) then [.chars enumValue]
  else
    [.startElem "code"]
      ++ ((enumValueQualifier relative).flatMap fun p =>
            synopsisNameEvents env p relative ++ [.chars "::"])
      ++ [.chars enumValue, .endElem "code"]

/-- The value cell's content: the recorded literal value in a code element,
or the placeholder glyph when none is recorded. -/
def valueCellEvents (relative : Node) (name : String) : List Event :=
  if itemValue relative name = "" then [.chars "?"]
  else [.startElem "code", .chars (itemValue relative name), .endElem "code"]

/-- Atom::ListTagLeft handler: a definition-list entry for the tag kind; for
the value kind a table row with the constant cell and, when the context is
an enumeration, the value cell. -/
def doListTagLeft (env : Env) (a : Atom) (rest : List Atom) (relative : Node)
    (st : GState) : GState × Nat :=
  if a.string = "tag" then
    (emit st [.startElem "varlistentry", nl, .startElem "item"], 0)
  else
    let pair := getAtomListValue rest
    let st := emit st ([.startElem "tr", nl, .startElem "td", nl, .startElem "para"]
      ++ generateEnumValueEvents env pair.1 relative
      ++ [.endElem "para", nl, .endElem "td", nl])
    let st :=
      if relative.ntype = NType.enumT then
        emit st ([.startElem "td"]
          ++ valueCellEvents relative ((rest.headD ⟨.nop, []⟩).string)
          ++ [.endElem "td", nl])
      else st
    (st, pair.2)

/-- Atom::ListItemLeft handler: for the value kind under the three-column
flag, an empty item (immediately followed by its end marker) still emits a
structurally valid empty cell. -/
def doListItemLeft (a : Atom) (rest : List Atom) (st : GState) : GState :=
  let st := { st with inListItemLineOpen := false }
  if a.string = "tag" then emit st [.startElem "listitem", nl, .startElem "para"]
  else if a.string = "value" then
    if st.threeColumnEnumValueTable then
      if rest.head?.map (·.typ) = some AKind.listItemRight then
        { (emit st [.emptyElem "td", nl]) with inListItemLineOpen := false }
      else { (emit st [.startElem "td", nl]) with inListItemLineOpen := true }
    else st
  else emit st [.startElem "listitem", nl]

/-- Atom::ListItemRight handler. -/
def doListItemRight (a : Atom) (st : GState) : GState :=
  if a.string = "tag" then
    emit st [.endElem "para", nl, .endElem "listitem", nl, .endElem "varlistentry", nl]
  else if a.string = "value" then
    let st := if st.inListItemLineOpen
      then { (emit st [.endElem "td", nl]) with inListItemLineOpen := false } else st
    emit st [.endElem "tr", nl]
  else emit st [.endElem "listitem", nl]

/-- Atom::ListRight handler: closes the container opened by the matching
list-begin, chosen by the kind string. -/
def doListRight (a : Atom) (st : GState) : GState :=
  if a.string = "bullet" then emit st [.endElem "itemizedlist", nl]
  else if a.string = "tag" then emit st [.endElem "variablelist", nl]
  else if a.string = "value" then emit st [.endElem "informaltable", nl]
  else emit st [.endElem "orderedlist", nl]

/-- The while loop of the section-begin handler: pops while the top is at
least the new level, returning the remaining stack and the number of pops
(one structural close per pop). -/
def popSections (L : Int) : List Int → List Int × Nat
  | [] => ([], 0)
  | x :: s => if L ≤ x then ((popSections L s).1, (popSections L s).2 + 1) else (x :: s, 0)

/-- One section close plus newline per pop. -/
def sectionCloseEvents : Nat → List Event
  | 0 => []
  | k + 1 => [Event.endElem "section", nl] ++ sectionCloseEvents k

/-- Atom::SectionLeft handler: computes the effective level, and above
level 1 closes every open section at the same or deeper level, then pushes
the level and opens one new section container with its derived anchor. -/
def doSectionLeft (env : Env) (a : Atom) (rest : List Atom) (relative : Node)
    (st : GState) : GState :=
  let L := qToInt a.string + env.hOffset relative
  let st := { st with currentSectionLevel := L }
  if 1 < L then
    let pr := popSections L st.sectionLevels
    let st := emit st (sectionCloseEvents pr.2)
    let st := { st with sectionLevels := L :: pr.1 }
    emit st [.startElem "section", .attr "xml:id" (canonicalTitle (sectionHeadingStr rest)), nl]
  else st

/-- The table-opening part of the TableLeft handler, after the open
paragraph has been closed. -/
def doTableLeftOpen (a : Atom) (st : GState) : GState :=
  let pair := getTableWidthAttr a
  let st := emit st [.startElem "informaltable", .attr "style" pair.2]
  let st := if pair.1 ≠ "" then emit st [.attr "width" pair.1] else st
  { (emit st [nl]) with numTableRows := 0 }

/-- Atom::TableLeft handler. -/
def doTableLeft (a : Atom) (st : GState) : GState :=
  doTableLeftOpen a (closeOpenPara st)

/-- Atom::TableHeaderRight handler: merges a directly following header group
into a sibling row, otherwise closes the header container and clears the
in-header flag. -/
def doTableHeaderRight (rest : List Atom) (st : GState) : GState × Nat :=
  let st := emit st [.endElem "tr", nl]
  if rest.head?.map (·.typ) = some AKind.tableHeaderLeft then
    (emit st [.startElem "tr", nl], 1)
  else
    ({ (emit st [.endElem "thead", nl]) with inTableHeader := false }, 0)

/-- The pairwise attribute loop of the table-row handler: one attribute per
key/value pair, the key losing its trailing "="; a dangling odd token is
dropped. -/
def pairAttrEvents : List String → List Event
  | k :: v :: rest => .attr (k.dropRight 1) v :: pairAttrEvents rest
  | _ => []

/-- The warning text reported for a malformed table-row attribute string. -/
def tableWarnMsg (s : String) : String :=
  "Error when parsing attributes for the table: got \"" ++ s ++ "\""

/-- Atom::TableRowLeft handler: an empty attribute string yields the default
valign attribute; otherwise the string is split at quotes, an odd token
count is reported as a non-fatal warning at the originating comment's
location, and the parseable pairs are written. -/
def doTableRowLeft (a : Atom) (relative : Node) (st : GState) : GState :=
  let st := emit st [.startElem "tr"]
  let st :=
    if a.string = "" then emit st [.attr "valign" "top"]
    else
      let args := (qSplit a.string '\x22').filter fun x => x ≠ ""
      let st := if args.length % 2 = 1
        then { st with warnings := (relative.data.docLocation, tableWarnMsg a.string) :: st.warnings }
        else st
      emit st (pairAttrEvents args)
  emit st [nl]

/-- The attribute loop of the table-item handler: key=value pairs, or
colspan,rowspan spans with the redundant span value 1 omitted. -/
def tableItemAttrEvents : List String → List Event
  | [] => []
  | p :: rest =>
    (if qContains p '=' then
      let lp := qSplit p '='
      [Event.attr (lp.headD "") (lp.getD 1 "")]
    else
      let spans := qSplit p ','
      if spans.length = 2 then
        (if spans.headD "" ≠ "1" then [Event.attr "colspan" (spans.headD "")] else [])
          ++ (if spans.getD 1 "" ≠ "1" then [Event.attr "rowspan" (spans.getD 1 "")] else [])
      else []) ++ tableItemAttrEvents rest

/-- Atom::TableItemLeft handler: a header or body cell depending on the
in-header flag. -/
def doTableItemLeft (a : Atom) (st : GState) : GState :=
  emit st ([.startElem (if st.inTableHeader then "th" else "td")]
    ++ tableItemAttrEvents a.args ++ [nl])

/-- writeAnchor: an empty anchor element with its identifier. -/
def writeAnchorEvents (id : String) : List Event :=
  [.emptyElem "anchor", .attr "xml:id" id, nl]

/-- DocBookGenerator::generateAtom: one dispatch-table entry per atom kind;
returns the updated state and the skip count of additional atoms consumed. -/
def generateAtom (env : Env) (a : Atom) (rest : List Atom) (relative : Node)
    (st : GState) : GState × Nat :=
  match a.typ with
  | .autoLink => (doAutoLink env a relative st, 0)
  | .navAutoLink => (doAutoLink env a relative st, 0)
  | .c => (emit st [.startElem "code", .chars a.string, .endElem "code"], 0)
  | .formatIf => (st, 0)
  | .formatElse => (st, 0)
  | .formatEndif => (st, 0)
  | .formattingLeft => (doFormattingLeft a st, 0)
  | .formattingRight => (doFormattingRight a st, 0)
  | .link =>
    (beginLink (env.getLink a.string relative).1 (env.getLink a.string relative).2 relative st, 1)
  | .navLink =>
    (beginLink (env.getLink a.string relative).1 (env.getLink a.string relative).2 relative st, 1)
  | .listLeft => (doListLeft a rest relative st, 0)
  | .listItemNumber => (st, 0)
  | .listTagLeft => doListTagLeft env a rest relative st
  | .listTagRight => (if a.string = "tag" then emit st [.endElem "item", nl] else st, 0)
  | .sinceTagRight => (if a.string = "tag" then emit st [.endElem "item", nl] else st, 0)
  | .listItemLeft => (doListItemLeft a rest st, 0)
  | .listItemRight => (doListItemRight a st, 0)
  | .listRight => (doListRight a st, 0)
  | .nop => (st, 0)
  | .paraLeft => ({ (emit st [.startElem "para"]) with inPara := true }, 0)
  | .paraRight =>
    let st := endLink st
    (if st.inPara then { (emit st [.endElem "para", nl]) with inPara := false } else st, 0)
  | .rawString => (emit st [.chars a.string], 0)
  | .sectionLeft => (doSectionLeft env a rest relative st, 0)
  | .sectionRight => (st, 0)
  | .sectionHeadingLeft =>
    (if 1 < st.currentSectionLevel
      then { (emit st [.startElem "title"]) with inSectionHeading := true } else st, 0)
  | .sectionHeadingRight =>
    (if 1 < st.currentSectionLevel
      then { (emit st [.endElem "title", nl]) with inSectionHeading := false } else st, 0)
  | .string =>
    (if st.inLink ∧ ¬st.inContents ∧ ¬st.inSectionHeading
      then generateLink a st else emit st [.chars a.string], 0)
  | .tableLeft => (doTableLeft a st, 0)
  | .tableRight => (emit st [.endElem "informaltable", nl], 0)
  | .tableHeaderLeft =>
    ({ (emit st [.startElem "thead", nl, .startElem "tr", nl]) with inTableHeader := true }, 0)
  | .tableHeaderRight => doTableHeaderRight rest st
  | .tableRowLeft => (doTableRowLeft a relative st, 0)
  | .tableRowRight => (emit st [.endElem "tr", nl], 0)
  | .tableItemLeft => (doTableItemLeft a st, 0)
  | .tableItemRight => (emit st [.endElem (if st.inTableHeader then "th" else "td"), nl], 0)
  | .target => (emit st (writeAnchorEvents (canonicalTitle a.string)), 0)
  | .unhandledFormat =>
    (emit st [.startElem "emphasis", .attr "role" "bold",
      .chars "&lt;Missing DocBook&gt;", .endElem "emphasis"], 0)

/-- Generator::generateAtomList as a fuel-indexed walk over the atom list.
The fuel only bounds the recursion depth: fed with one unit more than the
list length it never runs out (each step spends one unit and hands the
remainder to a strictly shorter list, see genListF_rest_length).  The C++
loop distinguishes a null return from reaching a control atom; both are
folded into the remaining-list result, which is observationally identical
(a null return aborts every enclosing frame without further effects).
Returns the remaining atoms, the state, and the numAtoms counter. -/
def genListF : Nat → List Atom → Env → Node → Bool → GState → Nat →
    List Atom × GState × Nat
  | 0, atoms, _, _, _, st, n => (atoms, st, n)
  | _ + 1, [], _, _, _, st, n => ([], st, n)
  | fuel + 1, a :: tl, env, rel, g, st, n =>
    match a.typ with
    | .formatIf =>
      let r1 := genListF fuel tl env rel g st n
      let r2 :=
        match r1.1 with
        | b :: btl =>
          if b.typ = AKind.formatElse then genListF fuel btl env rel false r1.2.1 (r1.2.2 + 1)
          else r1
        | [] => r1
      let r3 :=
        match r2.1 with
        | b :: btl =>
          if b.typ = AKind.formatEndif then
            if g ∧ r2.2.2 = n then
              let warned := { r2.2.1 with
                warnings := (rel.data.docLocation, "Output format DocBook not handled") :: r2.2.1.warnings }
              let rf := genListF fuel [⟨.unhandledFormat, ["DocBook"]⟩] env rel g warned r2.2.2
              (btl, rf.2.1, rf.2.2)
            else (btl, r2.2.1, r2.2.2)
          else r2
        | [] => r2
      genListF fuel r3.1 env rel g r3.2.1 r3.2.2
    | .formatElse => (a :: tl, st, n)
    | .formatEndif => (a :: tl, st, n)
    | _ =>
      if g then
        let r := generateAtom env a tl rel st
        genListF fuel (tl.drop r.2) env rel g r.1 (n + (1 + r.2))
      else
        genListF fuel tl env rel g st n

/-- The loop body of the end-of-document flush: one structural close per
popped stack entry. -/
def closeSectionsFrom : List Int → GState → GState
  | [], st => st
  | _ :: rest, st => closeSectionsFrom rest (emit st [.endElem "section", nl])

/-- DocBookGenerator::closeTextSections: the end-of-document flush, popping
every remaining stack entry and closing one section container per pop. -/
def closeTextSections (st : GState) : GState :=
  { closeSectionsFrom st.sectionLevels st with sectionLevels := [] }

/-- Modelled from the spec: Generator::initializeTextOutput, the per-text
reset of the interpreter's flags.  It cannot touch inPara (a function-local
static of generateAtom) and does not touch the DocBook generator's own
inLink member, the section stack, the anchor registry or the emitted
output. -/
def initializeTextOutput (st : GState) : GState :=
  { st with
    inContents := false
    inSectionHeading := false
    inTableHeader := false
    numTableRows := 0
    threeColumnEnumValueTable := true }

/-- DocBookGenerator::generateText: the public render entry point.  Returns
false immediately when the text has no first atom; otherwise initialises
per-text output state, interprets the whole atom list and flushes the
section stack, returning true. -/
def generateText (env : Env) (text : List Atom) (relative : Node) (st : GState) :
    Bool × GState :=
  match text with
  | [] => (false, st)
  | _ =>
    let st1 := initializeTextOutput st
    let r := genListF (text.length + 1) text env relative true st1 0
    (true, closeTextSections r.2.1)

/-- DocBookGenerator::startGenericDocument: opens a new output document,
writing the root element and emptying the section stack for the new
document.  It has no access to generateAtom's function-local static
inPara. -/
def startGenericDocument (st : GState) : GState :=
  { (emit st [.startElem "article", .attr "version" "5.2", nl]) with sectionLevels := [] }

/-- Open calls for one element type: writeStartElement plus
writeEmptyElement (an empty element opens and closes in one call). -/
def isOpenOf (name : String) : Event → Bool
  | .startElem n => n == name
  | .emptyElem n => n == name
  | _ => false

/-- Close calls for one element type. -/
def isCloseOf (name : String) : Event → Bool
  | .endElem n => n == name
  | .emptyElem n => n == name
  | _ => false

def countOpen (name : String) (evs : List Event) : Nat := evs.countP (isOpenOf name)

def countClose (name : String) (evs : List Event) : Nat := evs.countP (isCloseOf name)

/-- A table cell open: a td or th element. -/
def isCellOpen : Event → Bool
  | .startElem n => n == "td" || n == "th"
  | .emptyElem n => n == "td" || n == "th"
  | _ => false

/-- A table row open. -/
def isRowOpen : Event → Bool
  | .startElem n => n == "tr"
  | _ => false

/-- The cell count of every table row in an event stream: rows are delimited
by tr opens and closes, and each cell open inside a row counts once.  The
accumulator holds the running cell count of the currently open row. -/
def rowCellCounts : List Event → Option Nat → List Nat
  | [], none => []
  | [], some k => [k]
  | e :: rest, none =>
    if isRowOpen e then rowCellCounts rest (some 0) else rowCellCounts rest none
  | e :: rest, some k =>
    if e = .endElem "tr" then k :: rowCellCounts rest none
    else if isCellOpen e then rowCellCounts rest (some (k + 1))
    else rowCellCounts rest (some k)

/-- Occurrences of the unhandled-format fallback marker text. -/
def unhandledMarkerCount (evs : List Event) : Nat :=
  evs.countP fun e => e == .chars "&lt;Missing DocBook&gt;"

/-- The writer calls of the unhandled-format fallback marker. -/
def unhandledMarkerEvents : List Event :=
  [Event.startElem "emphasis", Event.attr "role" "bold",
   Event.chars "&lt;Missing DocBook&gt;", Event.endElem "emphasis"]

/-- An event that neither opens a cell, nor opens a row, nor closes a row:
invisible to rowCellCounts. -/
def rowNeutral (e : Event) : Bool :=
  !isRowOpen e && !isCellOpen e && !(e == .endElem "tr")

/-- An event that neither opens nor closes a section element. -/
def noSect (e : Event) : Bool :=
  !isOpenOf "section" e && !isCloseOf "section" e

/-- The section bookkeeping invariant: every section open is matched by
either a section close already emitted or an entry still on the stack. -/
def sectInv (st : GState) : Prop :=
  countOpen "section" st.events = countClose "section" st.events + st.sectionLevels.length

/-- A default environment for concrete runs: offset one, nothing
resolves. -/
def envD : Env :=
  { hOffset := fun _ => 1
    getAutoLink := fun _ _ => ("", none)
    getLink := fun _ _ => ("", none)
    linkForNode := fun _ _ => "" }

/-- A plain rendering-context node. -/
def nodeD : Node := { data := { name := "Page", docLocation := "page.qdoc" } }

/-- The initial generator state. -/
def initSt : GState := {}

/-- The atoms of one value-list entry: term, term text, term end, item with
its description strings, item end. -/
def valueItemAtoms (it : String × List String) : List Atom :=
  [⟨.listTagLeft, ["value"]⟩, ⟨.string, [it.1]⟩, ⟨.listTagRight, ["value"]⟩,
    ⟨.listItemLeft, ["value"]⟩]
    ++ it.2.map (fun s => ⟨.string, [s]⟩) ++ [⟨.listItemRight, ["value"]⟩]

/-- A whole value list: list-begin, the entries, list-end. -/
def valueListAtoms (items : List (String × List String)) : List Atom :=
  ⟨.listLeft, ["value"]⟩ :: (items.flatMap valueItemAtoms ++ [⟨.listRight, ["value"]⟩])

/-- The writer calls produced for one value-list entry when the context is
an enumeration and the three-column flag is set. -/
def valueItemEvents (env : Env) (relative : Node) (it : String × List String) : List Event :=
  [.startElem "tr", nl, .startElem "td", nl, .startElem "para"]
    ++ generateEnumValueEvents env it.1 relative
    ++ [.endElem "para", nl, .endElem "td", nl]
    ++ [.startElem "td"] ++ valueCellEvents relative it.1 ++ [.endElem "td", nl]
    ++ (if it.2.isEmpty then [.emptyElem "td", nl]
        else [.startElem "td", nl] ++ it.2.map (fun s => .chars s) ++ [.endElem "td", nl])
    ++ [.endElem "tr", nl]

/-- The writer calls of a whole run of value-list entries. -/
def itemsEvents (env : Env) (relative : Node) (items : List (String × List String)) : List Event :=
  items.flatMap (valueItemEvents env relative)

/-- The interpreter steps spent on a run of value-list entries (the term
skip saves one step per entry, so this is one less per entry than the atom
count). -/
def sumItemFuel (items : List (String × List String)) : Nat :=
  items.foldr (fun it acc => 4 + it.2.length + acc) 0

/-- The header-row writer calls of a value list. -/
def valueListHeaderEvents (threeCol : Bool) (relative : Node) : List Event :=
  [.startElem "informaltable", nl, .startElem "thead", nl, .startElem "tr", nl]
    ++ thTextEvents "Constant" ++ [nl]
    ++ (if threeCol ∧ relative.ntype = NType.enumT then thTextEvents "Value" ++ [nl] else [])
    ++ thTextEvents "Description" ++ [nl, .endElem "tr", nl, .endElem "thead", nl]

/-- A documented class used as a link target's parent. -/
def nodePData : NodeData := { name := "QWidget", status := .active, ntype := .classT }

/-- The parent node itself, used as a rendering context. -/
def nodeP : Node := { data := nodePData }

/-- An obsolete link target whose parent is nodeP. -/
def nodeObs : Node :=
  { data := { name := "QOld", status := .obsolete, ntype := .classT }
    ancestors := [nodePData] }

/-- A non-obsolete child of the obsolete node, used as a context whose
parent is the obsolete target. -/
def nodeChild : Node :=
  { data := { name := "QOldChild", status := .active, ntype := .classT }
    ancestors := [nodeObs.data, nodePData] }

/-- An environment whose auto-link resolver finds the obsolete node. -/
def envAuto : Env :=
  { envD with getAutoLink := fun s _ => if s = "QOld" then ("qold.html", some nodeObs) else ("", none) }

/-- A section with heading text "Intro" followed by its (no-op) end atom. -/
def sectionPairAtoms : List Atom :=
  [⟨.sectionLeft, ["1"]⟩, ⟨.sectionHeadingLeft, []⟩, ⟨.string, ["Intro"]⟩,
    ⟨.sectionHeadingRight, []⟩, ⟨.sectionRight, []⟩]

/-- Two sections with identical heading text. -/
def dupHeadingAtoms : List Atom := sectionPairAtoms ++ sectionPairAtoms

/-- An enumeration context recording a literal value for "A" only. -/
def nodeEnum : Node := { data := { name := "E", ntype := .enumT, enumValues := [("A", "0x1")] } }

/-- An environment with a zero section-level offset. -/
def envZero : Env := { envD with hOffset := fun _ => 0 }

/-- Folds a run of section-begin atoms through generateAtom. -/
def sectionLevelFold (levels : List String) : GState :=
  levels.foldl (fun st s => (generateAtom envZero ⟨.sectionLeft, [s]⟩ [] nodeD st).1) initSt

/-- A state with open sections at levels 4, 3, 2 (innermost first). -/
def stackSt : GState := { sectionLevels := [4, 3, 2] }

/-- A state transition that emits no section opens or closes and leaves the
section stack unchanged. -/
def sectNeutralStep (st st' : GState) : Prop :=
  countOpen "section" st'.events = countOpen "section" st.events
  ∧ countClose "section" st'.events = countClose "section" st.events
  ∧ st'.sectionLevels = st.sectionLevels
  ∧ st'.refMap = st.refMap

/-! Counting infrastructure. -/

theorem countOpen_append (name : String) (xs ys : List Event) :
    countOpen name (xs ++ ys) = countOpen name xs + countOpen name ys :=
  List.countP_append _ _ _

theorem countClose_append (name : String) (xs ys : List Event) :
    countClose name (xs ++ ys) = countClose name xs + countClose name ys :=
  List.countP_append _ _ _

theorem countOpen_eq_zero_of_noSect {d : List Event} (hd : ∀ e ∈ d, noSect e = true) :
    countOpen "section" d = 0 := by
  refine List.countP_eq_zero.mpr fun e he => ?_
  have := hd e he
  simp only [noSect, Bool.and_eq_true, Bool.not_eq_true'] at this
  simp [this.1]

theorem countClose_eq_zero_of_noSect {d : List Event} (hd : ∀ e ∈ d, noSect e = true) :
    countClose "section" d = 0 := by
  refine List.countP_eq_zero.mpr fun e he => ?_
  have := hd e he
  simp only [noSect, Bool.and_eq_true, Bool.not_eq_true'] at this
  simp [this.2]

theorem popSections_eq (L : Int) (s : List Int) :
    popSections L s
      = (s.dropWhile (fun x => decide (L ≤ x)), (s.takeWhile (fun x => decide (L ≤ x))).length) := by
  induction s with
  | nil => simp [popSections]
  | cons x xs ih =>
    by_cases h : L ≤ x <;>
      simp [popSections, List.dropWhile_cons, List.takeWhile_cons, h, ih]

theorem popSections_length (L : Int) (s : List Int) :
    ((popSections L s).1).length + (popSections L s).2 = s.length := by
  induction s with
  | nil => simp [popSections]
  | cons x xs ih =>
    by_cases h : L ≤ x <;> simp [popSections, h] <;> omega

theorem sectionCloseEvents_countOpen (k : Nat) :
    countOpen "section" (sectionCloseEvents k) = 0 := by
  induction k with
  | zero => rfl
  | succ m ih =>
    have hstep : sectionCloseEvents (m + 1) = [Event.endElem "section", nl] ++ sectionCloseEvents m := rfl
    rw [hstep, countOpen_append, ih]
    decide

theorem sectionCloseEvents_countClose (k : Nat) :
    countClose "section" (sectionCloseEvents k) = k := by
  induction k with
  | zero => rfl
  | succ m ih =>
    have hstep : sectionCloseEvents (m + 1) = [Event.endElem "section", nl] ++ sectionCloseEvents m := rfl
    rw [hstep, countClose_append, ih]
    have h1 : countClose "section" [Event.endElem "section", nl] = 1 := by decide
    omega

@[simp] theorem isOpenOf_start (name m : String) : isOpenOf name (Event.startElem m) = (m == name) := rfl

@[simp] theorem isOpenOf_end (name m : String) : isOpenOf name (Event.endElem m) = false := rfl

@[simp] theorem isOpenOf_empty (name m : String) : isOpenOf name (Event.emptyElem m) = (m == name) := rfl

@[simp] theorem isOpenOf_attr (name k v : String) : isOpenOf name (Event.attr k v) = false := rfl

@[simp] theorem isOpenOf_chars (name s : String) : isOpenOf name (Event.chars s) = false := rfl

@[simp] theorem isCloseOf_start (name m : String) : isCloseOf name (Event.startElem m) = false := rfl

@[simp] theorem isCloseOf_end (name m : String) : isCloseOf name (Event.endElem m) = (m == name) := rfl

@[simp] theorem isCloseOf_empty (name m : String) : isCloseOf name (Event.emptyElem m) = (m == name) := rfl

@[simp] theorem isCloseOf_attr (name k v : String) : isCloseOf name (Event.attr k v) = false := rfl

@[simp] theorem isCloseOf_chars (name s : String) : isCloseOf name (Event.chars s) = false := rfl

@[simp] theorem isOpenOf_nl (name : String) : isOpenOf name nl = false := rfl

@[simp] theorem isCloseOf_nl (name : String) : isCloseOf name nl = false := rfl

@[simp] theorem emit_events (st : GState) (d : List Event) :
    (emit st d).events = st.events ++ d := rfl

@[simp] theorem emit_refMap (st : GState) (d : List Event) : (emit st d).refMap = st.refMap := rfl

@[simp] theorem emit_sectionLevels (st : GState) (d : List Event) :
    (emit st d).sectionLevels = st.sectionLevels := rfl

@[simp] theorem emit_inPara (st : GState) (d : List Event) : (emit st d).inPara = st.inPara := rfl

@[simp] theorem emit_inLink (st : GState) (d : List Event) : (emit st d).inLink = st.inLink := rfl

@[simp] theorem emit_inContents (st : GState) (d : List Event) :
    (emit st d).inContents = st.inContents := rfl

@[simp] theorem emit_inSectionHeading (st : GState) (d : List Event) :
    (emit st d).inSectionHeading = st.inSectionHeading := rfl

@[simp] theorem emit_inTableHeader (st : GState) (d : List Event) :
    (emit st d).inTableHeader = st.inTableHeader := rfl

@[simp] theorem emit_threeColumn (st : GState) (d : List Event) :
    (emit st d).threeColumnEnumValueTable = st.threeColumnEnumValueTable := rfl

@[simp] theorem emit_inListItemLineOpen (st : GState) (d : List Event) :
    (emit st d).inListItemLineOpen = st.inListItemLineOpen := rfl

@[simp] theorem emit_currentSectionLevel (st : GState) (d : List Event) :
    (emit st d).currentSectionLevel = st.currentSectionLevel := rfl

@[simp] theorem emit_numTableRows (st : GState) (d : List Event) :
    (emit st d).numTableRows = st.numTableRows := rfl

@[simp] theorem emit_warnings (st : GState) (d : List Event) :
    (emit st d).warnings = st.warnings := rfl

@[simp] theorem emit_emit (st : GState) (d e : List Event) :
    emit (emit st d) e = emit st (d ++ e) := by
  simp [emit]

theorem pairAttrEvents_attr : ∀ (l : List String), ∀ e ∈ pairAttrEvents l, ∃ k v, e = Event.attr k v
  | [] => by simp [pairAttrEvents]
  | [k] => by simp [pairAttrEvents]
  | k :: v :: rest => by
    intro e he
    simp only [pairAttrEvents, List.mem_cons] at he
    rcases he with he | he
    · exact ⟨_, _, he⟩
    · exact pairAttrEvents_attr rest e he

theorem tableItemAttrEvents_attr (l : List String) :
    ∀ e ∈ tableItemAttrEvents l, ∃ k v, e = Event.attr k v := by
  induction l with
  | nil => intro e he; simp [tableItemAttrEvents] at he
  | cons p rest ih =>
    intro e he
    simp only [tableItemAttrEvents, List.mem_append] at he
    rcases he with he | he
    · split at he
      · simp only [List.mem_cons, List.not_mem_nil, or_false] at he
        exact ⟨_, _, he⟩
      · split at he
        · simp only [List.mem_append] at he
          rcases he with he | he <;> split at he <;>
            simp only [List.mem_cons, List.not_mem_nil, or_false] at he <;>
            first
            | exact ⟨_, _, he⟩
            | exact absurd he (by simp)
        · simp at he
    · exact ih e he

theorem synopsisNameEvents_plain (env : Env) (n r : Node) :
    ∀ e ∈ synopsisNameEvents env n r, noSect e = true ∧ rowNeutral e = true := by
  intro e he
  simp only [synopsisNameEvents, List.mem_cons, List.not_mem_nil, or_false] at he
  rcases he with rfl | rfl | rfl | rfl | rfl | rfl | rfl <;>
    simp [noSect, rowNeutral, isOpenOf, isCloseOf, isRowOpen, isCellOpen]

theorem generateEnumValueEvents_plain (env : Env) (v : String) (rel : Node) :
    ∀ e ∈ generateEnumValueEvents env v rel, noSect e = true ∧ rowNeutral e = true := by
  intro e he
  simp only [generateEnumValueEvents] at he
  split at he
  · simp only [List.mem_cons, List.not_mem_nil, or_false] at he
    subst he
    simp [noSect, rowNeutral, isRowOpen, isCellOpen]
  · simp only [List.cons_append, List.mem_cons, List.mem_append, List.mem_flatMap,
      List.not_mem_nil, or_false] at he
    rcases he with rfl | he
    · simp [noSect, rowNeutral, isOpenOf, isCloseOf, isRowOpen, isCellOpen]
    rcases he with (h0 | ⟨p, _, hp | rfl⟩) | rfl | rfl
    · exact absurd h0 not_false
    · exact synopsisNameEvents_plain env p rel e hp
    · simp [noSect, rowNeutral, isRowOpen, isCellOpen]
    · simp [noSect, rowNeutral, isRowOpen, isCellOpen]
    · simp [noSect, rowNeutral, isOpenOf, isCloseOf, isRowOpen, isCellOpen]


theorem valueCellEvents_plain (rel : Node) (name : String) :
    ∀ e ∈ valueCellEvents rel name, noSect e = true ∧ rowNeutral e = true := by
  intro e he
  simp only [valueCellEvents] at he
  split at he <;>
    simp only [List.mem_cons, List.not_mem_nil, or_false] at he
  · subst he
    simp [noSect, rowNeutral, isRowOpen, isCellOpen]
  · rcases he with rfl | rfl | rfl <;>
      simp [noSect, rowNeutral, isOpenOf, isCloseOf, isRowOpen, isCellOpen]

theorem sectNeutralStep_refl (st : GState) : sectNeutralStep st st := ⟨rfl, rfl, rfl, rfl⟩

theorem sectNeutralStep_trans {s1 s2 s3 : GState} (h1 : sectNeutralStep s1 s2)
    (h2 : sectNeutralStep s2 s3) : sectNeutralStep s1 s3 :=
  ⟨h2.1.trans h1.1, h2.2.1.trans h1.2.1, h2.2.2.1.trans h1.2.2.1, h2.2.2.2.trans h1.2.2.2⟩

theorem sectNeutralStep_emit {d : List Event} (st : GState)
    (h1 : countOpen "section" d = 0) (h2 : countClose "section" d = 0) :
    sectNeutralStep st (emit st d) := by
  refine ⟨?_, ?_, rfl, rfl⟩
  · rw [emit_events, countOpen_append, h1, Nat.add_zero]
  · rw [emit_events, countClose_append, h2, Nat.add_zero]

theorem sectInv_of_step {st st' : GState} (h : sectNeutralStep st st') (hi : sectInv st) :
    sectInv st' := by
  unfold sectInv at *
  rw [h.1, h.2.1, h.2.2.1]
  exact hi

@[simp] theorem countOpen_nil (name : String) : countOpen name [] = 0 := rfl

@[simp] theorem countClose_nil (name : String) : countClose name [] = 0 := rfl

@[simp] theorem countOpen_cons (name : String) (e : Event) (l : List Event) :
    countOpen name (e :: l) = countOpen name l + (if isOpenOf name e then 1 else 0) :=
  List.countP_cons _ _ _

@[simp] theorem countClose_cons (name : String) (e : Event) (l : List Event) :
    countClose name (e :: l) = countClose name l + (if isCloseOf name e then 1 else 0) :=
  List.countP_cons _ _ _

theorem endLink_step (st : GState) : sectNeutralStep st (endLink st) := by
  unfold endLink
  split_ifs <;>
    exact ⟨by simp [countOpen_append], by simp [countClose_append], by simp, by simp⟩

theorem beginLink_step (link : String) (node : Option Node) (rel : Node) (st : GState) :
    sectNeutralStep st (beginLink link node rel st) := by
  unfold beginLink
  rcases node with _ | n <;> dsimp only <;> (try split_ifs) <;>
    exact ⟨by simp [countOpen_append], by simp [countClose_append], by simp, by simp⟩

theorem generateLink_step (a : Atom) (st : GState) : sectNeutralStep st (generateLink a st) := by
  unfold generateLink
  rcases h : funcParenPos a.string with _ | k <;> dsimp only <;>
    exact ⟨by simp [countOpen_append], by simp [countClose_append], by simp, by simp⟩

theorem doAutoLink_step (env : Env) (a : Atom) (rel : Node) (st : GState) :
    sectNeutralStep st (doAutoLink env a rel st) := by
  unfold doAutoLink
  split_ifs with h1
  · rcases hr : env.getAutoLink a.string rel with ⟨l, nodeOpt⟩
    simp only [hr]
    split_ifs with h2
    · exact ⟨by simp [countOpen_append], by simp [countClose_append], by simp, by simp⟩
    · exact sectNeutralStep_trans (beginLink_step _ _ _ _)
        (sectNeutralStep_trans (generateLink_step _ _) (endLink_step _))
  · exact ⟨by simp [countOpen_append], by simp [countClose_append], by simp, by simp⟩

theorem doFormattingLeft_step (a : Atom) (st : GState) :
    sectNeutralStep st (doFormattingLeft a st) := by
  unfold doFormattingLeft
  split_ifs <;>
    exact ⟨by simp [countOpen_append], by simp [countClose_append], by simp, by simp⟩

theorem doFormattingRightBase_step (a : Atom) (st : GState) :
    sectNeutralStep st (doFormattingRightBase a st) := by
  unfold doFormattingRightBase
  split_ifs <;>
    exact ⟨by simp [countOpen_append], by simp [countClose_append], by simp, by simp⟩

theorem doFormattingRight_step (a : Atom) (st : GState) :
    sectNeutralStep st (doFormattingRight a st) := by
  unfold doFormattingRight
  split_ifs
  · exact sectNeutralStep_trans (doFormattingRightBase_step a st) (endLink_step _)
  · exact doFormattingRightBase_step a st

theorem closeOpenPara_step (st : GState) : sectNeutralStep st (closeOpenPara st) := by
  unfold closeOpenPara
  split_ifs <;>
    exact ⟨by simp [countOpen_append], by simp [countClose_append], by simp, by simp⟩

set_option maxHeartbeats 1000000 in
theorem doListLeftKind_step (a : Atom) (rest : List Atom) (rel : Node) (st : GState) :
    sectNeutralStep st (doListLeftKind a rest rel st) := by
  unfold doListLeftKind
  rcases hh : rest.head? with _ | nxt <;> simp only [hh] <;>
    split_ifs <;>
    exact ⟨by simp [countOpen_append, thTextEvents], by simp [countClose_append, thTextEvents],
      by simp, by simp⟩

theorem doListLeft_step (a : Atom) (rest : List Atom) (rel : Node) (st : GState) :
    sectNeutralStep st (doListLeft a rest rel st) :=
  sectNeutralStep_trans (closeOpenPara_step st) (doListLeftKind_step a rest rel _)

theorem doListTagLeft_step (env : Env) (a : Atom) (rest : List Atom) (rel : Node) (st : GState) :
    sectNeutralStep st (doListTagLeft env a rest rel st).1 := by
  unfold doListTagLeft
  have hz1 : ∀ v : String, countOpen "section" (generateEnumValueEvents env v rel) = 0 := fun v =>
    countOpen_eq_zero_of_noSect fun e he => (generateEnumValueEvents_plain env v rel e he).1
  have hz2 : ∀ v : String, countClose "section" (generateEnumValueEvents env v rel) = 0 := fun v =>
    countClose_eq_zero_of_noSect fun e he => (generateEnumValueEvents_plain env v rel e he).1
  have hv1 : ∀ nm : String, countOpen "section" (valueCellEvents rel nm) = 0 := fun nm =>
    countOpen_eq_zero_of_noSect fun e he => (valueCellEvents_plain rel nm e he).1
  have hv2 : ∀ nm : String, countClose "section" (valueCellEvents rel nm) = 0 := fun nm =>
    countClose_eq_zero_of_noSect fun e he => (valueCellEvents_plain rel nm e he).1
  split_ifs <;>
    exact ⟨by simp [countOpen_append, hz1, hv1], by simp [countClose_append, hz2, hv2], by simp, by simp⟩

theorem doListItemLeft_step (a : Atom) (rest : List Atom) (st : GState) :
    sectNeutralStep st (doListItemLeft a rest st) := by
  unfold doListItemLeft
  (try dsimp only)
  split_ifs <;>
    exact ⟨by simp [countOpen_append], by simp [countClose_append], by simp, by simp⟩

theorem doListItemRight_step (a : Atom) (st : GState) :
    sectNeutralStep st (doListItemRight a st) := by
  unfold doListItemRight
  (try dsimp only)
  split_ifs <;>
    exact ⟨by simp [countOpen_append], by simp [countClose_append], by simp, by simp⟩

theorem doListRight_step (a : Atom) (st : GState) : sectNeutralStep st (doListRight a st) := by
  unfold doListRight
  split_ifs <;>
    exact ⟨by simp [countOpen_append], by simp [countClose_append], by simp, by simp⟩

theorem doTableLeftOpen_step (a : Atom) (st : GState) :
    sectNeutralStep st (doTableLeftOpen a st) := by
  unfold doTableLeftOpen getTableWidthAttr
  (try dsimp only)
  split_ifs <;>
    exact ⟨by simp [countOpen_append], by simp [countClose_append], by simp, by simp⟩

theorem doTableLeft_step (a : Atom) (st : GState) : sectNeutralStep st (doTableLeft a st) :=
  sectNeutralStep_trans (closeOpenPara_step st) (doTableLeftOpen_step a _)

theorem doTableHeaderRight_step (rest : List Atom) (st : GState) :
    sectNeutralStep st (doTableHeaderRight rest st).1 := by
  unfold doTableHeaderRight
  (try dsimp only)
  split_ifs <;>
    exact ⟨by simp [countOpen_append], by simp [countClose_append], by simp, by simp⟩

theorem doTableRowLeft_step (a : Atom) (rel : Node) (st : GState) :
    sectNeutralStep st (doTableRowLeft a rel st) := by
  unfold doTableRowLeft
  have hp1 : ∀ l : List String, countOpen "section" (pairAttrEvents l) = 0 := fun l =>
    countOpen_eq_zero_of_noSect fun e he => by
      rcases pairAttrEvents_attr l e he with ⟨k, v, rfl⟩; rfl
  have hp2 : ∀ l : List String, countClose "section" (pairAttrEvents l) = 0 := fun l =>
    countClose_eq_zero_of_noSect fun e he => by
      rcases pairAttrEvents_attr l e he with ⟨k, v, rfl⟩; rfl
  dsimp only
  split_ifs <;>
    exact ⟨by simp [countOpen_append, hp1], by simp [countClose_append, hp2], by simp, by simp⟩

theorem doTableItemLeft_step (a : Atom) (st : GState) :
    sectNeutralStep st (doTableItemLeft a st) := by
  unfold doTableItemLeft
  have hp1 : countOpen "section" (tableItemAttrEvents a.args) = 0 :=
    countOpen_eq_zero_of_noSect fun e he => by
      rcases tableItemAttrEvents_attr _ e he with ⟨k, v, rfl⟩; rfl
  have hp2 : countClose "section" (tableItemAttrEvents a.args) = 0 :=
    countClose_eq_zero_of_noSect fun e he => by
      rcases tableItemAttrEvents_attr _ e he with ⟨k, v, rfl⟩; rfl
  cases h : st.inTableHeader <;> (try simp only [h]) <;>
    exact ⟨by simp [countOpen_append, hp1, h], by simp [countClose_append, hp2, h], by simp, by simp⟩

theorem generateAtom_step (env : Env) (a : Atom) (rest : List Atom) (rel : Node)
    (st : GState) (hne : a.typ ≠ AKind.sectionLeft) :
    sectNeutralStep st (generateAtom env a rest rel st).1 := by
  rcases a with ⟨t, args⟩
  cases t
  case autoLink => exact doAutoLink_step env ⟨.autoLink, args⟩ rel st
  case navAutoLink => exact doAutoLink_step env ⟨.navAutoLink, args⟩ rel st
  case c =>
    exact ⟨by simp [generateAtom, countOpen_append], by simp [generateAtom, countClose_append],
      by simp [generateAtom], by simp [generateAtom]⟩
  case formatIf => exact sectNeutralStep_refl st
  case formatElse => exact sectNeutralStep_refl st
  case formatEndif => exact sectNeutralStep_refl st
  case formattingLeft => exact doFormattingLeft_step ⟨.formattingLeft, args⟩ st
  case formattingRight => exact doFormattingRight_step ⟨.formattingRight, args⟩ st
  case link => exact beginLink_step _ _ rel st
  case navLink => exact beginLink_step _ _ rel st
  case listLeft => exact doListLeft_step ⟨.listLeft, args⟩ rest rel st
  case listItemNumber => exact sectNeutralStep_refl st
  case listTagLeft => exact doListTagLeft_step env ⟨.listTagLeft, args⟩ rest rel st
  case listTagRight =>
    simp only [generateAtom]
    split_ifs <;>
      first
      | exact sectNeutralStep_refl st
      | exact ⟨by simp [countOpen_append], by simp [countClose_append], by simp, by simp⟩
  case sinceTagRight =>
    simp only [generateAtom]
    split_ifs <;>
      first
      | exact sectNeutralStep_refl st
      | exact ⟨by simp [countOpen_append], by simp [countClose_append], by simp, by simp⟩
  case listItemLeft => exact doListItemLeft_step ⟨.listItemLeft, args⟩ rest st
  case listItemRight => exact doListItemRight_step ⟨.listItemRight, args⟩ st
  case listRight => exact doListRight_step ⟨.listRight, args⟩ st
  case nop => exact sectNeutralStep_refl st
  case paraLeft =>
    exact ⟨by simp [generateAtom, countOpen_append], by simp [generateAtom, countClose_append],
      by simp [generateAtom], by simp [generateAtom]⟩
  case paraRight =>
    simp only [generateAtom]
    refine sectNeutralStep_trans (endLink_step st) ?_
    split_ifs <;>
      first
      | exact sectNeutralStep_refl _
      | exact ⟨by simp [countOpen_append], by simp [countClose_append], by simp, by simp⟩
  case rawString =>
    exact ⟨by simp [generateAtom, countOpen_append], by simp [generateAtom, countClose_append],
      by simp [generateAtom], by simp [generateAtom]⟩
  case sectionLeft => exact absurd rfl hne
  case sectionRight => exact sectNeutralStep_refl st
  case sectionHeadingLeft =>
    simp only [generateAtom]
    split_ifs <;>
      first
      | exact sectNeutralStep_refl st
      | exact ⟨by simp [countOpen_append], by simp [countClose_append], by simp, by simp⟩
  case sectionHeadingRight =>
    simp only [generateAtom]
    split_ifs <;>
      first
      | exact sectNeutralStep_refl st
      | exact ⟨by simp [countOpen_append], by simp [countClose_append], by simp, by simp⟩
  case string =>
    simp only [generateAtom]
    split_ifs <;>
      first
      | exact generateLink_step _ st
      | exact ⟨by simp [countOpen_append], by simp [countClose_append], by simp, by simp⟩
  case tableLeft => exact doTableLeft_step ⟨.tableLeft, args⟩ st
  case tableRight =>
    exact ⟨by simp [generateAtom, countOpen_append], by simp [generateAtom, countClose_append],
      by simp [generateAtom], by simp [generateAtom]⟩
  case tableHeaderLeft =>
    exact ⟨by simp [generateAtom, countOpen_append], by simp [generateAtom, countClose_append],
      by simp [generateAtom], by simp [generateAtom]⟩
  case tableHeaderRight => exact doTableHeaderRight_step rest st
  case tableRowLeft => exact doTableRowLeft_step ⟨.tableRowLeft, args⟩ rel st
  case tableRowRight =>
    exact ⟨by simp [generateAtom, countOpen_append], by simp [generateAtom, countClose_append],
      by simp [generateAtom], by simp [generateAtom]⟩
  case tableItemLeft => exact doTableItemLeft_step ⟨.tableItemLeft, args⟩ st
  case tableItemRight =>
    simp only [generateAtom]
    split_ifs <;>
      exact ⟨by simp [countOpen_append], by simp [countClose_append], by simp, by simp⟩
  case target =>
    exact ⟨by simp [generateAtom, writeAnchorEvents, countOpen_append],
      by simp [generateAtom, writeAnchorEvents, countClose_append], by simp [generateAtom], by simp [generateAtom]⟩
  case unhandledFormat =>
    exact ⟨by simp [generateAtom, countOpen_append], by simp [generateAtom, countClose_append],
      by simp [generateAtom], by simp [generateAtom]⟩

theorem doSectionLeft_sectInv (env : Env) (a : Atom) (rest : List Atom) (rel : Node)
    (st : GState) (h : sectInv st) : sectInv (doSectionLeft env a rest rel st) := by
  unfold doSectionLeft
  dsimp only
  split_ifs with hL
  · unfold sectInv at *
    have hlen := popSections_length (qToInt a.string + env.hOffset rel) st.sectionLevels
    simp [countOpen_append, countClose_append, sectionCloseEvents_countOpen,
      sectionCloseEvents_countClose]
    omega
  · simpa [sectInv] using h

theorem generateAtom_sectInv (env : Env) (a : Atom) (rest : List Atom) (rel : Node)
    (st : GState) (h : sectInv st) : sectInv (generateAtom env a rest rel st).1 := by
  by_cases hs : a.typ = AKind.sectionLeft
  · rcases a with ⟨t, args⟩
    simp only [Atom.mk.injEq] at hs
    subst hs
    exact doSectionLeft_sectInv env ⟨.sectionLeft, args⟩ rest rel st h
  · exact sectInv_of_step (generateAtom_step env a rest rel st hs) h

theorem doSectionLeft_refMap (env : Env) (a : Atom) (rest : List Atom) (rel : Node)
    (st : GState) : (doSectionLeft env a rest rel st).refMap = st.refMap := by
  unfold doSectionLeft
  dsimp only
  split_ifs <;> simp

theorem generateAtom_refMap (env : Env) (a : Atom) (rest : List Atom) (rel : Node)
    (st : GState) : (generateAtom env a rest rel st).1.refMap = st.refMap := by
  by_cases hs : a.typ = AKind.sectionLeft
  · rcases a with ⟨t, args⟩
    simp only [Atom.mk.injEq] at hs
    subst hs
    exact doSectionLeft_refMap env ⟨.sectionLeft, args⟩ rest rel st
  · exact (generateAtom_step env a rest rel st hs).2.2.2

theorem closeSectionsFrom_events : ∀ (l : List Int) (st : GState),
    (closeSectionsFrom l st).events = st.events ++ sectionCloseEvents l.length
  | [], st => by simp [closeSectionsFrom, sectionCloseEvents]
  | x :: rest, st => by
    rw [closeSectionsFrom, closeSectionsFrom_events rest]
    simp [sectionCloseEvents]

theorem closeSectionsFrom_refMap : ∀ (l : List Int) (st : GState),
    (closeSectionsFrom l st).refMap = st.refMap
  | [], st => rfl
  | x :: rest, st => by rw [closeSectionsFrom, closeSectionsFrom_refMap rest]; rfl

theorem closeTextSections_levels (st : GState) : (closeTextSections st).sectionLevels = [] := rfl

theorem closeTextSections_events (st : GState) :
    (closeTextSections st).events = st.events ++ sectionCloseEvents st.sectionLevels.length := by
  unfold closeTextSections
  simp [closeSectionsFrom_events]

theorem closeTextSections_refMap (st : GState) : (closeTextSections st).refMap = st.refMap := by
  unfold closeTextSections
  simp [closeSectionsFrom_refMap]

theorem closeTextSections_balanced (st : GState) (h : sectInv st) :
    (closeTextSections st).sectionLevels = []
    ∧ countOpen "section" (closeTextSections st).events
        = countClose "section" (closeTextSections st).events := by
  refine ⟨rfl, ?_⟩
  rw [closeTextSections_events, countOpen_append, countClose_append,
    sectionCloseEvents_countOpen, sectionCloseEvents_countClose]
  unfold sectInv at h
  omega

@[simp] theorem initializeTextOutput_events (st : GState) :
    (initializeTextOutput st).events = st.events := rfl

@[simp] theorem initializeTextOutput_sectionLevels (st : GState) :
    (initializeTextOutput st).sectionLevels = st.sectionLevels := rfl

@[simp] theorem initializeTextOutput_refMap (st : GState) :
    (initializeTextOutput st).refMap = st.refMap := rfl

@[simp] theorem initializeTextOutput_inPara (st : GState) :
    (initializeTextOutput st).inPara = st.inPara := rfl

@[simp] theorem initializeTextOutput_inLink (st : GState) :
    (initializeTextOutput st).inLink = st.inLink := rfl

theorem genListF_sectInv : ∀ (fuel : Nat) (atoms : List Atom) (env : Env) (rel : Node)
    (g : Bool) (st : GState) (n : Nat), sectInv st →
    sectInv (genListF fuel atoms env rel g st n).2.1 := by
  intro fuel
  induction fuel with
  | zero => intro atoms env rel g st n h; exact h
  | succ f ih =>
    intro atoms env rel g st n h
    rcases atoms with _ | ⟨a, tl⟩
    · exact h
    cases ht : a.typ
    all_goals try
      (simp only [genListF, ht]
       split_ifs
       · exact ih _ env rel _ _ _ (generateAtom_sectInv env a tl rel st h)
       · exact ih _ env rel _ _ _ h)
    case formatElse => simp only [genListF, ht]; exact h
    case formatEndif => simp only [genListF, ht]; exact h
    case formatIf =>
      simp only [genListF, ht]
      rcases hr1 : genListF f tl env rel g st n with ⟨rest1, st1, n1⟩
      have h1 : sectInv st1 := by
        have hh := ih tl env rel g st n h
        rw [hr1] at hh
        exact hh
      rcases rest1 with _ | ⟨b, btl⟩
      · dsimp only
        exact ih _ env rel g _ _ h1
      dsimp only
      by_cases hb : b.typ = AKind.formatElse
      · rw [if_pos hb]
        rcases hr2 : genListF f btl env rel false st1 (n1 + 1) with ⟨rest2, st2, n2⟩
        have h2 : sectInv st2 := by
          have hh := ih btl env rel false st1 (n1 + 1) h1
          rw [hr2] at hh
          exact hh
        rcases rest2 with _ | ⟨c, ctl⟩
        · dsimp only
          exact ih _ env rel g _ _ h2
        dsimp only
        by_cases hc : c.typ = AKind.formatEndif
        · rw [if_pos hc]
          split_ifs with hgen
          · dsimp only
            refine ih _ env rel g _ _ ?_
            refine ih _ env rel g _ _ ?_
            simpa [sectInv] using h2
          · exact ih _ env rel g _ _ h2
        · rw [if_neg hc]
          exact ih _ env rel g _ _ h2
      · rw [if_neg hb]
        dsimp only
        by_cases hbe : b.typ = AKind.formatEndif
        · rw [if_pos hbe]
          split_ifs with hgen
          · dsimp only
            refine ih _ env rel g _ _ ?_
            refine ih _ env rel g _ _ ?_
            simpa [sectInv] using h1
          · exact ih _ env rel g _ _ h1
        · rw [if_neg hbe]
          exact ih _ env rel g _ _ h1

theorem genListF_refMap : ∀ (fuel : Nat) (atoms : List Atom) (env : Env) (rel : Node)
    (g : Bool) (st : GState) (n : Nat),
    (genListF fuel atoms env rel g st n).2.1.refMap = st.refMap := by
  intro fuel
  induction fuel with
  | zero => intro atoms env rel g st n; rfl
  | succ f ih =>
    intro atoms env rel g st n
    rcases atoms with _ | ⟨a, tl⟩
    · rfl
    cases ht : a.typ
    all_goals try
      (simp only [genListF, ht]
       split_ifs
       · rw [ih]; exact generateAtom_refMap env a tl rel st
       · exact ih _ env rel _ _ _)
    case formatElse => simp only [genListF, ht]
    case formatEndif => simp only [genListF, ht]
    case formatIf =>
      simp only [genListF, ht]
      rcases hr1 : genListF f tl env rel g st n with ⟨rest1, st1, n1⟩
      have h1 : st1.refMap = st.refMap := by
        have hh := ih tl env rel g st n
        rw [hr1] at hh
        exact hh
      rcases rest1 with _ | ⟨b, btl⟩
      · dsimp only
        rw [ih]
        exact h1
      dsimp only
      by_cases hb : b.typ = AKind.formatElse
      · rw [if_pos hb]
        rcases hr2 : genListF f btl env rel false st1 (n1 + 1) with ⟨rest2, st2, n2⟩
        have h2 : st2.refMap = st.refMap := by
          have hh := ih btl env rel false st1 (n1 + 1)
          rw [hr2] at hh
          rw [hh, h1]
        rcases rest2 with _ | ⟨c, ctl⟩
        · dsimp only
          rw [ih]
          exact h2
        dsimp only
        by_cases hc : c.typ = AKind.formatEndif
        · rw [if_pos hc]
          split_ifs with hgen
          · dsimp only
            rw [ih, ih]
            exact h2
          · rw [ih]
            exact h2
        · rw [if_neg hc]
          rw [ih]
          exact h2
      · rw [if_neg hb]
        dsimp only
        by_cases hbe : b.typ = AKind.formatEndif
        · rw [if_pos hbe]
          split_ifs with hgen
          · dsimp only
            rw [ih, ih]
            exact h1
          · rw [ih]
            exact h1
        · rw [if_neg hbe]
          rw [ih]
          exact h1

theorem generateText_refMap (env : Env) (text : List Atom) (rel : Node) (st : GState) :
    (generateText env text rel st).2.refMap = st.refMap := by
  cases text with
  | nil => rfl
  | cons a tl =>
    simp only [generateText]
    rw [closeTextSections_refMap, genListF_refMap]
    rfl

/-- C1 counterexample: an atom sequence that omits the explicit list-end
close.  The rendered document opens one itemizedlist element and closes
none: the end-of-document flush only force-closes sections, so open and
close call counts are not equal for every element type. -/
theorem c1_unterminated_list_unbalanced :
    countOpen "itemizedlist"
        (generateText envD [⟨.listLeft, ["bullet"]⟩] nodeD initSt).2.events = 1
    ∧ countClose "itemizedlist"
        (generateText envD [⟨.listLeft, ["bullet"]⟩] nodeD initSt).2.events = 0
    ∧ (generateText envD [⟨.listLeft, ["bullet"]⟩] nodeD initSt).2.sectionLevels = [] := by
  decide

/-- C1 (amended): for every atom sequence rendered as one document body
(generateText, which ends with the closeTextSections flush), starting from
a document state with an empty section stack and balanced section events,
the section stack is empty afterwards and the number of section-element
open calls equals the number of section-element close calls — even when
the sequence omits explicit closes.  The balance guarantee of the original
claim does not extend to the other element types (lists, tables, links),
whose unterminated containers the flush does not force-close. -/
theorem c1_section_balance (env : Env) (text : List Atom) (rel : Node) (st : GState)
    (hstack : st.sectionLevels = [])
    (hbal : countOpen "section" st.events = countClose "section" st.events) :
    (generateText env text rel st).2.sectionLevels = []
    ∧ countOpen "section" (generateText env text rel st).2.events
        = countClose "section" (generateText env text rel st).2.events := by
  have hinv : sectInv st := by
    unfold sectInv
    rw [hstack]
    simpa using hbal
  cases text with
  | nil => exact ⟨hstack, hbal⟩
  | cons a tl =>
    simp only [generateText]
    have hinit : sectInv (initializeTextOutput st) := by
      simpa [sectInv] using hinv
    have hrun := genListF_sectInv ((a :: tl).length + 1) (a :: tl) env rel true
      (initializeTextOutput st) 0 hinit
    exact closeTextSections_balanced _ hrun

/-- Witness for the amended C1 at a concrete unterminated-section input. -/
theorem c1_section_balance_witness :
    (generateText envD [⟨.sectionLeft, ["1"]⟩] nodeD initSt).2.sectionLevels = []
    ∧ countOpen "section" (generateText envD [⟨.sectionLeft, ["1"]⟩] nodeD initSt).2.events
        = countClose "section" (generateText envD [⟨.sectionLeft, ["1"]⟩] nodeD initSt).2.events :=
  c1_section_balance envD [⟨.sectionLeft, ["1"]⟩] nodeD initSt rfl rfl

/-- C2: a section-begin atom at effective level L (declared level plus the
configured offset) with L above 1 first pops the stack while its top is at
least L, closing one section container per pop, then pushes L and opens
exactly one new section container; section-end atoms are complete no-ops;
and processing the levels [2,3,4,3] leaves the stack equal to [2,3] (the
stack list here stores the innermost level first, so its value is
[3, 2]). -/
theorem c2_section_stack_transitions :
    (∀ (env : Env) (rel : Node) (st : GState) (a : Atom) (rest : List Atom),
      a.typ = AKind.sectionLeft →
      1 < qToInt a.string + env.hOffset rel →
      (generateAtom env a rest rel st).1.sectionLevels
          = (qToInt a.string + env.hOffset rel)
            :: st.sectionLevels.dropWhile (fun x => decide (qToInt a.string + env.hOffset rel ≤ x))
        ∧ countOpen "section" (generateAtom env a rest rel st).1.events
            = countOpen "section" st.events + 1
        ∧ countClose "section" (generateAtom env a rest rel st).1.events
            = countClose "section" st.events
              + (st.sectionLevels.takeWhile
                  (fun x => decide (qToInt a.string + env.hOffset rel ≤ x))).length)
    ∧ (∀ (env : Env) (rel : Node) (st : GState) (a : Atom) (rest : List Atom),
      a.typ = AKind.sectionRight → generateAtom env a rest rel st = (st, 0))
    ∧ (sectionLevelFold ["2", "3", "4", "3"]).sectionLevels = [3, 2] := by
  refine ⟨?_, ?_, by decide⟩
  · intro env rel st a rest htyp hL
    rcases a with ⟨t, args⟩
    simp only [Atom.mk.injEq] at htyp
    subst htyp
    show (doSectionLeft env ⟨.sectionLeft, args⟩ rest rel st).sectionLevels = _
      ∧ countOpen "section" (doSectionLeft env ⟨.sectionLeft, args⟩ rest rel st).events = _
      ∧ countClose "section" (doSectionLeft env ⟨.sectionLeft, args⟩ rest rel st).events = _
    unfold doSectionLeft
    dsimp only
    rw [if_pos hL]
    refine ⟨?_, ?_, ?_⟩
    · simp [popSections_eq]
    · simp [countOpen_append, sectionCloseEvents_countOpen]
    · simp [countClose_append, sectionCloseEvents_countClose, popSections_eq]
  · intro env rel st a rest htyp
    rcases a with ⟨t, args⟩
    simp only [Atom.mk.injEq] at htyp
    subst htyp
    rfl

/-- Witness for C2 at the stack [4,3,2] (innermost first) and an incoming
level-3 section-begin: the level-4 and level-3 sections are closed and a
new level 3 is pushed over the kept level 2. -/
theorem c2_section_stack_transitions_witness :
    (generateAtom envZero ⟨.sectionLeft, ["3"]⟩ [] nodeD stackSt).1.sectionLevels
        = (qToInt "3" + envZero.hOffset nodeD)
          :: stackSt.sectionLevels.dropWhile
              (fun x => decide (qToInt "3" + envZero.hOffset nodeD ≤ x))
    ∧ countOpen "section" (generateAtom envZero ⟨.sectionLeft, ["3"]⟩ [] nodeD stackSt).1.events
        = countOpen "section" stackSt.events + 1
    ∧ countClose "section" (generateAtom envZero ⟨.sectionLeft, ["3"]⟩ [] nodeD stackSt).1.events
        = countClose "section" stackSt.events
          + (stackSt.sectionLevels.takeWhile
              (fun x => decide (qToInt "3" + envZero.hOffset nodeD ≤ x))).length :=
  c2_section_stack_transitions.1 envZero nodeD stackSt ⟨.sectionLeft, ["3"]⟩ [] rfl (by decide)

/-- C8 counterexample: a text holding a single no-output atom makes
generateText return true while producing no output at all, refuting
"returns false exactly when no output was produced". -/
theorem c8_nop_true_no_output :
    (generateText envD [⟨.nop, []⟩] nodeD initSt).1 = true
    ∧ (generateText envD [⟨.nop, []⟩] nodeD initSt).2.events = [] := by
  decide

/-- C8 (amended): generateText returns true exactly when the text has at
least one atom, regardless of whether any output was produced into the
document. -/
theorem c8_return_iff_nonempty (env : Env) (text : List Atom) (rel : Node) (st : GState) :
    (generateText env text rel st).1 = !text.isEmpty := by
  cases text <;> rfl

/-- C10: the in-paragraph flag is process-wide state, not per-document
render context: the per-text initialisation and the per-document open both
leave it untouched; a text ending in an unclosed paragraph leaves it set;
and the first list-begin (or table-begin) atom of the next rendered text —
even in a fresh document — first emits a spurious paragraph-close
element. -/
theorem c10_inPara_process_static :
    (∀ st : GState, (initializeTextOutput st).inPara = st.inPara)
    ∧ (∀ st : GState, (startGenericDocument st).inPara = st.inPara)
    ∧ (generateText envD [⟨.paraLeft, []⟩, ⟨.string, ["x"]⟩] nodeD initSt).2.inPara = true
    ∧ (generateText envD [⟨.listLeft, ["bullet"]⟩] nodeD
        (startGenericDocument
          (generateText envD [⟨.paraLeft, []⟩, ⟨.string, ["x"]⟩] nodeD initSt).2)).2.events
      = (startGenericDocument
          (generateText envD [⟨.paraLeft, []⟩, ⟨.string, ["x"]⟩] nodeD initSt).2).events
        ++ [Event.endElem "para", nl, Event.startElem "itemizedlist", nl]
    ∧ (generateText envD [⟨.tableLeft, [""]⟩] nodeD
        (startGenericDocument
          (generateText envD [⟨.paraLeft, []⟩, ⟨.string, ["x"]⟩] nodeD initSt).2)).2.events
      = (startGenericDocument
          (generateText envD [⟨.paraLeft, []⟩, ⟨.string, ["x"]⟩] nodeD initSt).2).events
        ++ [Event.endElem "para", nl, Event.startElem "informaltable",
            Event.attr "style" "", nl] := by
  exact ⟨fun st => rfl, fun st => rfl, by decide, by decide, by decide⟩

/-- C9: a table-row-begin atom with a non-empty attribute string is parsed
pairwise after splitting at quotes; an odd token count is reported as a
non-fatal warning at the originating comment's source location while the
row element is still emitted with the parseable pairs, and the interpreter
continues with the following atoms. -/
theorem c9_malformed_row_attributes (env : Env) (rel : Node) (st : GState) (a : Atom)
    (rest : List Atom) (htyp : a.typ = AKind.tableRowLeft) (hne : a.string ≠ "") :
    (generateAtom env a rest rel st).2 = 0
    ∧ (generateAtom env a rest rel st).1.events
        = st.events ++ [Event.startElem "tr"]
          ++ pairAttrEvents ((qSplit a.string '\x22').filter fun x => x ≠ "") ++ [nl]
    ∧ (generateAtom env a rest rel st).1.warnings
        = (if ((qSplit a.string '\x22').filter fun x => x ≠ "").length % 2 = 1
           then (rel.data.docLocation, tableWarnMsg a.string) :: st.warnings
           else st.warnings)
    ∧ ∀ (fuel : Nat) (n : Nat),
        genListF (fuel + 1) (a :: rest) env rel true st n
          = genListF fuel rest env rel true (generateAtom env a rest rel st).1 (n + 1) := by
  rcases a with ⟨t, args⟩
  simp only [Atom.mk.injEq] at htyp
  subst htyp
  refine ⟨rfl, ?_, ?_, ?_⟩
  · show (doTableRowLeft ⟨.tableRowLeft, args⟩ rel st).events = _
    unfold doTableRowLeft
    dsimp only
    rw [if_neg hne]
    split_ifs <;> simp
  · show (doTableRowLeft ⟨.tableRowLeft, args⟩ rel st).warnings = _
    unfold doTableRowLeft
    dsimp only
    rw [if_neg hne]
    split_ifs with hodd <;> simp [hodd]
  · intro fuel n
    simp only [genListF]
    rfl

/-- Witness for C9: the malformed attribute string splits into three
tokens; the warning is recorded, the row and the first pair are still
emitted, and rendering continues. -/
theorem c9_malformed_row_attributes_witness :
    (generateAtom envD ⟨.tableRowLeft, ["x=\"1\" junk"]⟩ [] nodeD initSt).2 = 0
    ∧ (generateAtom envD ⟨.tableRowLeft, ["x=\"1\" junk"]⟩ [] nodeD initSt).1.events
        = initSt.events ++ [Event.startElem "tr"]
          ++ pairAttrEvents ((qSplit (Atom.string ⟨.tableRowLeft, ["x=\"1\" junk"]⟩) '\x22').filter
              fun x => x ≠ "") ++ [nl]
    ∧ (generateAtom envD ⟨.tableRowLeft, ["x=\"1\" junk"]⟩ [] nodeD initSt).1.warnings
        = (if ((qSplit (Atom.string ⟨.tableRowLeft, ["x=\"1\" junk"]⟩) '\x22').filter
              fun x => x ≠ "").length % 2 = 1
           then (nodeD.data.docLocation,
              tableWarnMsg (Atom.string ⟨.tableRowLeft, ["x=\"1\" junk"]⟩)) :: initSt.warnings
           else initSt.warnings)
    ∧ ∀ (fuel : Nat) (n : Nat),
        genListF (fuel + 1) ([⟨.tableRowLeft, ["x=\"1\" junk"]⟩] : List Atom) envD nodeD true initSt n
          = genListF fuel [] envD nodeD true
              (generateAtom envD ⟨.tableRowLeft, ["x=\"1\" junk"]⟩ [] nodeD initSt).1 (n + 1) :=
  c9_malformed_row_attributes envD nodeD initSt ⟨.tableRowLeft, ["x=\"1\" junk"]⟩ [] rfl (by decide)

/-- C4 counterexample: the rendering context nodeP is the obsolete
target's own parent (nodeObs sits directly below nodeP), yet the atom is
rendered as plain text with no link-open element — the source only keeps
the link in the opposite direction (when the target is the context's
parent). -/
theorem c4_parent_context_plain_text :
    nodeObs.parent = some nodeP
    ∧ (generateAtom envAuto ⟨.autoLink, ["QOld"]⟩ [] nodeP initSt).1.events
        = [Event.chars "QOld"]
    ∧ countOpen "link" (generateAtom envAuto ⟨.autoLink, ["QOld"]⟩ [] nodeP initSt).1.events
        = 0 := by
  decide

/-- C4 (amended): for an auto-link atom resolving to an obsolete target
node, the link is suppressed (plain text, no link-open) when the context
is not obsolete and the target is not the context's own parent; a link
element is produced when the context is obsolete or when the target is the
context's parent (child-to-parent references) — not, as the original claim
stated, when the context is the target's parent. -/
theorem c4_obsolete_link_direction (env : Env) (a : Atom) (rest : List Atom) (rel : Node)
    (st : GState) (link : String) (node : Node)
    (htyp : a.typ = AKind.autoLink) (hL : st.inLink = false) (hC : st.inContents = false)
    (hS : st.inSectionHeading = false)
    (hres : env.getAutoLink a.string rel = (link, some node))
    (hlink : link ≠ "") (hobs : node.status = NStatus.obsolete) :
    ((rel.parent ≠ some node ∧ rel.status ≠ NStatus.obsolete) →
      (generateAtom env a rest rel st).1.events = st.events ++ [Event.chars a.string]
      ∧ countOpen "link" (generateAtom env a rest rel st).1.events
          = countOpen "link" st.events)
    ∧ ((rel.parent = some node ∨ rel.status = NStatus.obsolete) →
      countOpen "link" (generateAtom env a rest rel st).1.events
        = countOpen "link" st.events + 1) := by
  rcases a with ⟨t, args⟩
  simp only [Atom.mk.injEq] at htyp
  subst htyp
  show ((rel.parent ≠ some node ∧ rel.status ≠ NStatus.obsolete) →
      (doAutoLink env ⟨.autoLink, args⟩ rel st).events = _ ∧ countOpen "link" (doAutoLink env ⟨.autoLink, args⟩ rel st).events = _)
    ∧ ((rel.parent = some node ∨ rel.status = NStatus.obsolete) →
      countOpen "link" (doAutoLink env ⟨.autoLink, args⟩ rel st).events = _)
  unfold doAutoLink
  rw [if_pos (by simp [hL, hC, hS])]
  simp only [hres]
  constructor
  · rintro ⟨hp, hs⟩
    rw [if_pos (show link ≠ "" ∧ node.status = NStatus.obsolete ∧ rel.parent ≠ some node
        ∧ ¬(rel.status = NStatus.obsolete) from ⟨hlink, hobs, hp, hs⟩)]
    rw [if_pos rfl]
    exact ⟨by simp, by simp [countOpen_append]⟩
  · intro hk
    have hcond : ¬(link ≠ "" ∧ node.status = NStatus.obsolete ∧ rel.parent ≠ some node
        ∧ ¬(rel.status = NStatus.obsolete)) := by
      rcases hk with hk | hk
      · intro hcc
        exact hcc.2.2.1 hk
      · intro hcc
        exact hcc.2.2.2 hk
    rw [if_neg hcond, if_neg hlink]
    unfold endLink generateLink beginLink
    dsimp only
    rcases hfp : funcParenPos (Atom.string ⟨.autoLink, args⟩) with _ | k <;>
      simp only [hfp] <;> split_ifs <;> simp [countOpen_append]

/-- Witness for the amended C4: from the parent context the obsolete link
is plain text; from the obsolete target's own child the link element is
produced. -/
theorem c4_obsolete_link_direction_witness :
    ((generateAtom envAuto ⟨.autoLink, ["QOld"]⟩ [] nodeP initSt).1.events
        = initSt.events ++ [Event.chars (Atom.string ⟨.autoLink, ["QOld"]⟩)]
      ∧ countOpen "link" (generateAtom envAuto ⟨.autoLink, ["QOld"]⟩ [] nodeP initSt).1.events
          = countOpen "link" initSt.events)
    ∧ countOpen "link" (generateAtom envAuto ⟨.autoLink, ["QOld"]⟩ [] nodeChild initSt).1.events
        = countOpen "link" initSt.events + 1 :=
  ⟨(c4_obsolete_link_direction envAuto ⟨.autoLink, ["QOld"]⟩ [] nodeP initSt "qold.html" nodeObs
      rfl rfl rfl rfl (by decide) (by decide) (by decide)).1 (by decide),
   (c4_obsolete_link_direction envAuto ⟨.autoLink, ["QOld"]⟩ [] nodeChild initSt "qold.html" nodeObs
      rfl rfl rfl rfl (by decide) (by decide) (by decide)).2 (by decide)⟩

/-- C7 counterexample: rendering a body with two section headings of
identical text emits the same anchor identifier twice while the anchor
registry records nothing at all — the duplicate is silently emitted with
no registration, and no collision check ever happens. -/
theorem c7_duplicate_anchor_unregistered :
    ((generateText envD dupHeadingAtoms nodeD initSt).2.events.countP
        fun e => e == Event.attr "xml:id" "intro") = 2
    ∧ (generateText envD dupHeadingAtoms nodeD initSt).2.refMap = [] := by
  decide

/-- C7 (amended): anchors emitted by the interpreter (section-heading
anchors and target anchors) are derived purely from the canonicalized
text and are never recorded in or collision-checked against the anchor
registry: a whole-text render leaves the registry untouched, and the
identifier attribute emitted for a section or target atom is a function of
the text alone, so identical texts yield identical identifiers. -/
theorem c7_anchor_no_registry :
    (∀ (env : Env) (text : List Atom) (rel : Node) (st : GState),
      (generateText env text rel st).2.refMap = st.refMap)
    ∧ (∀ (env : Env) (rel : Node) (st : GState) (a : Atom) (rest : List Atom),
      a.typ = AKind.sectionLeft → 1 < qToInt a.string + env.hOffset rel →
      Event.attr "xml:id" (canonicalTitle (sectionHeadingStr rest))
        ∈ (generateAtom env a rest rel st).1.events)
    ∧ (∀ (env : Env) (rel : Node) (st : GState) (a : Atom) (rest : List Atom),
      a.typ = AKind.target →
      Event.attr "xml:id" (canonicalTitle a.string)
        ∈ (generateAtom env a rest rel st).1.events) := by
  refine ⟨generateText_refMap, ?_, ?_⟩
  · intro env rel st a rest htyp hL
    rcases a with ⟨t, args⟩
    simp only [Atom.mk.injEq] at htyp
    subst htyp
    show Event.attr "xml:id" _ ∈ (doSectionLeft env ⟨.sectionLeft, args⟩ rest rel st).events
    unfold doSectionLeft
    dsimp only
    rw [if_pos hL]
    simp
  · intro env rel st a rest htyp
    rcases a with ⟨t, args⟩
    simp only [Atom.mk.injEq] at htyp
    subst htyp
    show Event.attr "xml:id" _
        ∈ (emit st (writeAnchorEvents (canonicalTitle (Atom.string ⟨.target, args⟩)))).events
    simp [writeAnchorEvents]

/-- Witness for the amended C7 at a concrete section heading and target. -/
theorem c7_anchor_no_registry_witness :
    (generateText envD dupHeadingAtoms nodeD initSt).2.refMap = initSt.refMap
    ∧ Event.attr "xml:id"
        (canonicalTitle (sectionHeadingStr
          [⟨.sectionHeadingLeft, []⟩, ⟨.string, ["Intro"]⟩, ⟨.sectionHeadingRight, []⟩]))
      ∈ (generateAtom envD ⟨.sectionLeft, ["1"]⟩
          [⟨.sectionHeadingLeft, []⟩, ⟨.string, ["Intro"]⟩, ⟨.sectionHeadingRight, []⟩]
          nodeD initSt).1.events
    ∧ Event.attr "xml:id" (canonicalTitle (Atom.string ⟨.target, ["See Here"]⟩))
      ∈ (generateAtom envD ⟨.target, ["See Here"]⟩ [] nodeD initSt).1.events :=
  ⟨c7_anchor_no_registry.1 envD dupHeadingAtoms nodeD initSt,
   c7_anchor_no_registry.2.1 envD nodeD initSt ⟨.sectionLeft, ["1"]⟩
     [⟨.sectionHeadingLeft, []⟩, ⟨.string, ["Intro"]⟩, ⟨.sectionHeadingRight, []⟩] rfl (by decide),
   c7_anchor_no_registry.2.2 envD nodeD initSt ⟨.target, ["See Here"]⟩ [] rfl⟩

theorem generateAtom_string (env : Env) (args : List String) (rest : List Atom) (rel : Node)
    (st : GState) (hL : st.inLink = false) :
    generateAtom env ⟨AKind.string, args⟩ rest rel st
      = (emit st [Event.chars (Atom.string ⟨AKind.string, args⟩)], 0) := by
  simp only [generateAtom]
  rw [if_neg]
  intro hc
  rw [hL] at hc
  exact absurd hc.1 (by simp)

theorem genListF_strings (sA : List Atom) (hs : ∀ x ∈ sA, x.typ = AKind.string) :
    ∀ (f : Nat) (rest : List Atom) (env : Env) (rel : Node) (g : Bool) (st : GState) (n : Nat),
    st.inLink = false →
    genListF (sA.length + f) (sA ++ rest) env rel g st n
      = genListF f rest env rel g
          (if g then emit st (sA.map fun x => Event.chars x.string) else st)
          (if g then n + sA.length else n) := by
  induction sA with
  | nil =>
    intro f rest env rel g st n hL
    have he : emit st [] = st := by
      simp [emit]
    simp [he]
  | cons a sA ih =>
    intro f rest env rel g st n hL
    have hat : a.typ = AKind.string := hs a (by simp)
    have hs' : ∀ x ∈ sA, x.typ = AKind.string := fun x hx => hs x (by simp [hx])
    have hlen : (a :: sA).length + f = (sA.length + f) + 1 := by
      simp [List.length_cons]
      omega
    rw [hlen]
    rcases a with ⟨t, targs⟩
    simp only [Atom.mk.injEq] at hat
    subst hat
    simp only [genListF, List.cons_append, List.append_eq]
    cases g with
    | false =>
      rw [if_neg (by simp)]
      have := ih hs' f rest env rel false st n hL
      simpa using this
    | true =>
      rw [if_pos rfl]
      simp only [generateAtom_string env targs (sA ++ rest) rel st hL]
      have := ih hs' f rest env rel true
        (emit st [Event.chars (Atom.string ⟨AKind.string, targs⟩)]) (n + 1) (by simp [hL])
      simp only [List.drop_zero, Nat.add_zero, if_true] at this ⊢
      rw [this]
      simp [emit_emit]
      congr 1
      omega

theorem genListF_nilA (fuel : Nat) (env : Env) (rel : Node) (g : Bool) (st : GState) (n : Nat) :
    genListF fuel [] env rel g st n = ([], st, n) := by
  cases fuel <;> rfl

theorem genListF_stopElse {fuel : Nat} (hf : fuel ≠ 0) (args : List String) (btl : List Atom)
    (env : Env) (rel : Node) (g : Bool) (st : GState) (n : Nat) :
    genListF fuel (⟨AKind.formatElse, args⟩ :: btl) env rel g st n
      = (⟨AKind.formatElse, args⟩ :: btl, st, n) := by
  cases fuel with
  | zero => exact absurd rfl hf
  | succ f => simp [genListF]

theorem genListF_stopEndif {fuel : Nat} (hf : fuel ≠ 0) (args : List String) (btl : List Atom)
    (env : Env) (rel : Node) (g : Bool) (st : GState) (n : Nat) :
    genListF fuel (⟨AKind.formatEndif, args⟩ :: btl) env rel g st n
      = (⟨AKind.formatEndif, args⟩ :: btl, st, n) := by
  cases fuel with
  | zero => exact absurd rfl hf
  | succ f => simp [genListF]

/-- C3 counterexample: a conditional whose if-branch is empty but which
carries an else-branch.  The if-branch was rendered with emit=true and
produced zero output atoms, yet no unhandled-format fallback marker is
synthesized (the else path's counter increment suppresses the check): the
whole render emits nothing at all. -/
theorem c3_empty_else_no_fallback :
    (generateText envD [⟨.formatIf, []⟩, ⟨.formatElse, []⟩, ⟨.formatEndif, []⟩]
        nodeD initSt).2.events = []
    ∧ unhandledMarkerCount
        (generateText envD [⟨.formatIf, []⟩, ⟨.formatElse, []⟩, ⟨.formatEndif, []⟩]
          nodeD initSt).2.events = 0 := by
  decide

/-- C3 (amended): in a format-if conditional the if-branch is rendered with the
caller's emit flag and the else-branch with emit=false, but the unhandled-format
fallback marker is synthesized only when the conditional has NO else clause and
the if-branch consumed zero atoms: the `++numAtoms` performed when a FormatElse
is encountered makes the zero-progress test fail for every conditional that has
an else clause, so an empty if-branch followed by an else never produces the
fallback marker, contrary to the claim's "whenever" condition. -/
theorem c3_conditional_semantics (env : Env) (rel : Node) (st : GState)
    (ifA elseA : List Atom)
    (hIf : ∀ x ∈ ifA, x.typ = AKind.string) (hElse : ∀ x ∈ elseA, x.typ = AKind.string)
    (hL : st.inLink = false) (hstack : st.sectionLevels = []) :
    (generateText env
        (⟨.formatIf, []⟩ :: (ifA ++ ⟨.formatElse, []⟩ :: (elseA ++ [⟨.formatEndif, []⟩])))
        rel st).2.events
      = st.events ++ ifA.map (fun x => Event.chars x.string)
    ∧ (generateText env (⟨.formatIf, []⟩ :: (ifA ++ [⟨.formatEndif, []⟩])) rel st).2.events
        = st.events ++ ifA.map (fun x => Event.chars x.string)
          ++ (if ifA.isEmpty then unhandledMarkerEvents else []) := by
  constructor
  · simp only [generateText]
    have hfuel : (⟨AKind.formatIf, ([] : List String)⟩
          :: (ifA ++ ⟨AKind.formatElse, []⟩ :: (elseA ++ [⟨AKind.formatEndif, []⟩]))).length + 1
        = (ifA.length + (elseA.length + 3)) + 1 := by
      simp only [List.length_cons, List.length_append, List.length_nil]
      omega
    rw [hfuel]
    simp only [genListF]
    rw [genListF_strings ifA hIf (elseA.length + 3) _ env rel true _ 0 (by simp [hL])]
    simp only [reduceIte]
    rw [genListF_stopElse (show elseA.length + 3 ≠ 0 by omega) []]
    dsimp only
    rw [if_pos (show (⟨AKind.formatElse, ([] : List String)⟩ : Atom).typ = AKind.formatElse from rfl)]
    rw [show ifA.length + (elseA.length + 3) = elseA.length + (ifA.length + 3) from by omega]
    rw [genListF_strings elseA hElse (ifA.length + 3) _ env rel false _ _ (by simp [hL])]
    rw [genListF_stopEndif (show ifA.length + 3 ≠ 0 by omega) []]
    dsimp only
    rw [if_pos (show (⟨AKind.formatEndif, ([] : List String)⟩ : Atom).typ = AKind.formatEndif from rfl)]
    simp only [Bool.false_eq_true, if_false, if_true, reduceIte]
    have hcond : ¬(True ∧ 0 + ifA.length + 1 = 0) := by
      rintro ⟨-, h⟩
      omega
    rw [if_neg hcond]
    rw [genListF_nilA]
    rw [closeTextSections_events]
    simp [hstack, sectionCloseEvents]
  · by_cases hE : ifA = []
    · subst hE
      simp [generateText, genListF, generateAtom, closeTextSections, closeSectionsFrom,
        hstack, emit, initializeTextOutput, unhandledMarkerEvents]
    · simp only [generateText]
      have hfuel : (⟨AKind.formatIf, ([] : List String)⟩
            :: (ifA ++ [⟨AKind.formatEndif, []⟩])).length + 1
          = (ifA.length + 2) + 1 := by
        simp only [List.length_cons, List.length_append, List.length_nil]
        try omega
      rw [hfuel]
      simp only [genListF]
      rw [genListF_strings ifA hIf 2 _ env rel true _ 0 (by simp [hL])]
      simp only [reduceIte]
      rw [genListF_stopEndif (show (2:Nat) ≠ 0 by omega) []]
      dsimp only
      rw [if_neg (show ¬((⟨AKind.formatEndif, ([] : List String)⟩ : Atom).typ = AKind.formatElse)
        from fun h => AKind.noConfusion h)]
      dsimp only
      rw [if_pos (show (⟨AKind.formatEndif, ([] : List String)⟩ : Atom).typ = AKind.formatEndif from rfl)]
      have hcond : ¬(True ∧ 0 + ifA.length = 0) := by
        rintro ⟨-, h⟩
        exact hE (List.length_eq_zero.mp (by omega))
      rw [if_neg hcond]
      rw [genListF_nilA]
      rw [closeTextSections_events]
      simp [hstack, sectionCloseEvents, List.isEmpty_iff, hE]

/-- Witness for c3_conditional_semantics at a concrete conditional. -/
theorem c3_conditional_semantics_witness :
    (generateText envD [⟨AKind.formatIf, []⟩, ⟨AKind.string, ["keep"]⟩, ⟨AKind.formatElse, []⟩,
        ⟨AKind.string, ["skip"]⟩, ⟨AKind.formatEndif, []⟩] nodeD initSt).2.events
      = [Event.chars "keep"] := by
  have h := c3_conditional_semantics envD nodeD initSt [⟨AKind.string, ["keep"]⟩]
      [⟨AKind.string, ["skip"]⟩] (by simp) (by simp) rfl rfl
  simpa [Atom.string, initSt] using h.1


/-- C6 counterexample: a single-entry value list whose item has an empty
description makes the pre-scan three-column flag false, so no "Value" header
cell is emitted; yet because the context is an enumeration the per-row value
cell (here holding the recorded literal 0x1) is still emitted, refuting the
claim that the per-row value cell appears only when the three-column flag was
detected. -/
theorem c6_value_column_counterexample :
    isThreeColumnEnumValueTable (valueListAtoms [("A", [])]) = false
    ∧ (generateText envZero (valueListAtoms [("A", [])]) nodeEnum initSt).2.events.countP
        (fun e => e == Event.chars "Value") = 0
    ∧ (generateText envZero (valueListAtoms [("A", [])]) nodeEnum initSt).2.events.countP
        (fun e => e == Event.chars "0x1") = 1 :=
  ⟨by decide, by decide, by decide⟩

/-- C6 (amended): in a value-kind list the "Value" HEADER cell is emitted iff
the enclosing symbol is an enumeration AND the three-column flag was detected
by pre-scanning the list's atoms, but the per-row value cell depends only on
the enumeration test: the ListTagLeft handler opens two td cells in an
enumeration context and one otherwise, with no reference to the flag. -/
theorem c6_value_column_conditions (env : Env) (relative : Node) (st : GState)
    (rest rs : List Atom) :
    (doListLeft ⟨.listLeft, ["value"]⟩ rest relative st).events.countP
        (fun e => e == Event.chars "Value")
      = st.events.countP (fun e => e == Event.chars "Value")
        + (if isThreeColumnEnumValueTable (⟨.listLeft, ["value"]⟩ :: rest)
             ∧ relative.ntype = NType.enumT then 1 else 0)
    ∧ countOpen "td" (doListTagLeft env ⟨.listTagLeft, ["value"]⟩ rs relative st).1.events
      = countOpen "td" st.events + (if relative.ntype = NType.enumT then 2 else 1) := by
  have hclose : (closeOpenPara st).events.countP (fun e => e == Event.chars "Value")
      = st.events.countP (fun e => e == Event.chars "Value") := by
    unfold closeOpenPara
    split_ifs <;> simp [List.countP_append, nl]
  constructor
  · simp only [doListLeft, doListLeftKind]
    rw [if_neg (by decide), if_neg (by decide), if_pos (by decide)]
    dsimp only
    by_cases hc : isThreeColumnEnumValueTable
        ((⟨AKind.listLeft, ["value"]⟩ : Atom) :: rest) ∧ relative.ntype = NType.enumT
    · rw [if_pos (by simpa using hc), if_pos hc]
      simp [List.countP_append, List.countP_cons, thTextEvents, nl, hclose]
    · rw [if_neg (by simpa using hc), if_neg hc]
      simp [List.countP_append, List.countP_cons, thTextEvents, nl, hclose]
  · simp only [doListTagLeft]
    rw [if_neg (by decide)]
    dsimp only
    by_cases he : relative.ntype = NType.enumT
    · rw [if_pos he, if_pos he]
      have hq : List.countP (isOpenOf "td")
          ((enumValueQualifier relative).flatMap fun p =>
            synopsisNameEvents env p relative ++ [Event.chars "::"]) = 0 := by
        rw [List.countP_eq_zero]
        intro e he'
        rcases List.mem_flatMap.mp he' with ⟨p, hp1, hp⟩
        simp only [synopsisNameEvents, List.mem_append, List.mem_cons,
          List.not_mem_nil, or_false] at hp
        rcases hp with (h|h|h|h|h|h|h)|h <;> subst h <;> simp [isOpenOf]
      simp [countOpen, List.countP_append, List.countP_cons, generateEnumValueEvents,
        valueCellEvents, nl, he, hq]
      split_ifs <;> simp [isOpenOf]
    · rw [if_neg he, if_neg he]
      simp [countOpen, List.countP_append, List.countP_cons, generateEnumValueEvents,
        he, nl, isOpenOf]


def itemStep (env : Env) (rel : Node) (it : String × List String) (st : GState) : GState :=
  { emit st (valueItemEvents env rel it) with inListItemLineOpen := false }

theorem emit_setIlo (st : GState) (b : Bool) (d : List Event) :
    emit { st with inListItemLineOpen := b } d = { emit st d with inListItemLineOpen := b } := rfl

theorem doListTagLeft_value (env : Env) (rel : Node) (h1 : rel.ntype = NType.enumT)
    (nm : String) (t : List Atom) (st : GState) :
    doListTagLeft env ⟨.listTagLeft, ["value"]⟩
        (⟨.string, [nm]⟩ :: ⟨.listTagRight, ["value"]⟩ :: t) rel st
      = (emit st ([.startElem "tr", nl, .startElem "td", nl, .startElem "para"]
          ++ generateEnumValueEvents env nm rel
          ++ [.endElem "para", nl, .endElem "td", nl]
          ++ ([.startElem "td"] ++ valueCellEvents rel nm ++ [.endElem "td", nl])), 1) := by
  simp [doListTagLeft, Atom.string, getAtomListValue, List.takeWhile,
    show String.join [] = "" from rfl, String.append_empty, h1, emit_emit, List.append_assoc]

theorem doListItemLeft_value_empty (t : List Atom) (st : GState)
    (hT : st.threeColumnEnumValueTable = true) :
    doListItemLeft ⟨.listItemLeft, ["value"]⟩ (⟨.listItemRight, ["value"]⟩ :: t) st
      = { emit st [.emptyElem "td", nl] with inListItemLineOpen := false } := by
  simp [doListItemLeft, Atom.string, hT, emit_setIlo]

theorem doListItemLeft_value_open (d : String) (t : List Atom) (st : GState)
    (hT : st.threeColumnEnumValueTable = true) :
    doListItemLeft ⟨.listItemLeft, ["value"]⟩ (⟨.string, [d]⟩ :: t) st
      = { emit st [.startElem "td", nl] with inListItemLineOpen := true } := by
  simp [doListItemLeft, Atom.string, hT, emit_setIlo]

theorem doListItemRight_value (st : GState) :
    doListItemRight ⟨.listItemRight, ["value"]⟩ st
      = if st.inListItemLineOpen
          then { emit st [.endElem "td", nl, .endElem "tr", nl] with inListItemLineOpen := false }
          else emit st [.endElem "tr", nl] := by
  by_cases h : st.inListItemLineOpen
    <;> simp [doListItemRight, Atom.string, h, emit_setIlo, emit_emit, emit, List.append_assoc]

theorem genListF_valueItem (env : Env) (rel : Node) (h1 : rel.ntype = NType.enumT)
    (nm : String) (desc : List String) (f : Nat) (rest : List Atom) (st : GState) (n : Nat)
    (hT : st.threeColumnEnumValueTable = true) (hL : st.inLink = false) :
    genListF ((4 + desc.length) + f) (valueItemAtoms (nm, desc) ++ rest) env rel true st n
      = genListF f rest env rel true (itemStep env rel (nm, desc) st) (n + (5 + desc.length)) := by
  rcases desc with _ | ⟨d, ds⟩
  · simp only [valueItemAtoms, List.map_nil, List.append_nil, List.cons_append,
      List.nil_append, List.singleton_append, List.length_nil]
    rw [show 4 + 0 + f = (3 + f) + 1 from by omega]
    simp only [genListF]
    rw [if_pos trivial]
    simp only [generateAtom]
    rw [doListTagLeft_value env rel h1]
    simp only [List.drop_succ_cons, List.drop_zero]
    rw [show (3 + f) = (2 + f) + 1 from by omega]
    simp only [genListF]
    rw [if_pos trivial]
    simp only [generateAtom]
    rw [if_neg (show ¬((⟨AKind.listTagRight, ["value"]⟩ : Atom).string = "tag") from by decide)]
    simp only [List.drop_succ_cons, List.drop_zero]
    rw [show (2 + f) = (1 + f) + 1 from by omega]
    simp only [genListF]
    rw [if_pos trivial]
    simp only [generateAtom]
    rw [doListItemLeft_value_empty _ _ (by simp [hT])]
    simp only [List.drop_succ_cons, List.drop_zero]
    rw [show (1 + f) = f + 1 from by omega]
    simp only [genListF]
    rw [if_pos trivial]
    simp only [generateAtom]
    rw [doListItemRight_value]
    rw [if_neg (by simp)]
    simp only [List.drop_succ_cons, List.drop_zero]
    rw [show n + (1 + 1) + (1 + 0) + (1 + 0) + (1 + 0) = n + (5 + 0) from by omega]
    congr 1
    simp [itemStep, valueItemEvents, emit_setIlo, emit_emit, emit, List.append_assoc]
  · simp only [valueItemAtoms, List.map_cons, List.cons_append,
      List.nil_append, List.singleton_append, List.append_assoc, List.length_cons]
    rw [show 4 + (ds.length + 1) + f = ((3 + ds.length + f) + 1) + 1 from by omega]
    simp only [genListF]
    rw [if_pos trivial]
    simp only [generateAtom]
    rw [doListTagLeft_value env rel h1]
    simp only [List.drop_succ_cons, List.drop_zero]
    rw [if_pos trivial]
    rw [if_neg (show ¬((⟨AKind.listTagRight, ["value"]⟩ : Atom).string = "tag") from by decide)]
    rw [show 3 + ds.length + f = (2 + ds.length + f) + 1 from by omega]
    simp only [genListF]
    rw [if_pos trivial]
    simp only [generateAtom]
    rw [doListItemLeft_value_open _ _ _ (by simp [hT])]
    simp only [List.drop_succ_cons, List.drop_zero]
    have hmem : ∀ x ∈ (⟨AKind.string, [d]⟩ : Atom) :: ds.map (fun s => (⟨AKind.string, [s]⟩ : Atom)),
        x.typ = AKind.string := by
      intro x hx
      rcases List.mem_cons.mp hx with h | h
      · subst h; rfl
      · rcases List.mem_map.mp h with ⟨s, _, rfl⟩; rfl
    rw [show 2 + ds.length + f
        = ((⟨AKind.string, [d]⟩ : Atom) :: ds.map (fun s => (⟨AKind.string, [s]⟩ : Atom))).length + (f + 1)
      from by simp [List.length_cons, List.length_map]; omega]
    rw [show ((⟨AKind.string, [d]⟩ : Atom)
          :: (List.map (fun s => (⟨AKind.string, [s]⟩ : Atom)) ds
              ++ (⟨AKind.listItemRight, ["value"]⟩ : Atom) :: rest))
        = ((⟨AKind.string, [d]⟩ : Atom) :: List.map (fun s => (⟨AKind.string, [s]⟩ : Atom)) ds)
            ++ ((⟨AKind.listItemRight, ["value"]⟩ : Atom) :: rest) from rfl]
    rw [genListF_strings _ hmem (f + 1) _ env rel true _ _ (by simp [hL])]
    simp only [reduceIte]
    simp only [genListF]
    rw [if_pos trivial]
    simp only [generateAtom]
    rw [doListItemRight_value]
    rw [if_pos (by simp)]
    simp only [List.drop_succ_cons, List.drop_zero]
    congr 1
    · congr 1
      simp [itemStep, valueItemEvents, emit_setIlo, emit_emit, emit, List.append_assoc,
        List.map_map, Function.comp, Atom.string]
    · simp [List.length_cons, List.length_map]
      omega

theorem itemStep_threeColumn (env : Env) (rel : Node) (it : String × List String) (st : GState) :
    (itemStep env rel it st).threeColumnEnumValueTable = st.threeColumnEnumValueTable := rfl

theorem itemStep_inLink (env : Env) (rel : Node) (it : String × List String) (st : GState) :
    (itemStep env rel it st).inLink = st.inLink := rfl

theorem itemStep_sectionLevels (env : Env) (rel : Node) (it : String × List String) (st : GState) :
    (itemStep env rel it st).sectionLevels = st.sectionLevels := rfl

theorem itemStep_events (env : Env) (rel : Node) (it : String × List String) (st : GState) :
    (itemStep env rel it st).events = st.events ++ valueItemEvents env rel it := rfl

theorem genListF_valueItems (env : Env) (rel : Node) (h1 : rel.ntype = NType.enumT) :
    ∀ (items : List (String × List String)) (f : Nat) (rest : List Atom) (st : GState) (n : Nat),
      st.threeColumnEnumValueTable = true → st.inLink = false →
      genListF (sumItemFuel items + f) (items.flatMap valueItemAtoms ++ rest) env rel true st n
        = genListF f rest env rel true (items.foldl (fun s it => itemStep env rel it s) st)
            (n + (sumItemFuel items + items.length)) := by
  intro items
  induction items with
  | nil =>
    intro f rest st n hT hL
    simp [sumItemFuel]
  | cons it its ih =>
    intro f rest st n hT hL
    obtain ⟨nm, desc⟩ := it
    simp only [List.flatMap_cons, List.append_assoc, List.foldl_cons]
    rw [show sumItemFuel ((nm, desc) :: its) + f = (4 + desc.length) + (sumItemFuel its + f)
      from by simp [sumItemFuel]; omega]
    rw [genListF_valueItem env rel h1 nm desc _ _ st n hT hL]
    rw [ih _ _ _ _ (by rw [itemStep_threeColumn]; exact hT) (by rw [itemStep_inLink]; exact hL)]
    congr 1
    simp [sumItemFuel]
    omega

theorem foldl_itemStep_events (env : Env) (rel : Node) :
    ∀ (items : List (String × List String)) (st : GState),
      (items.foldl (fun s it => itemStep env rel it s) st).events
        = st.events ++ itemsEvents env rel items := by
  intro items
  induction items with
  | nil => intro st; simp [itemsEvents]
  | cons it its ih =>
    intro st
    simp only [List.foldl_cons]
    rw [ih, itemStep_events]
    simp [itemsEvents, List.append_assoc]

theorem foldl_itemStep_sectionLevels (env : Env) (rel : Node) :
    ∀ (items : List (String × List String)) (st : GState),
      (items.foldl (fun s it => itemStep env rel it s) st).sectionLevels = st.sectionLevels := by
  intro items
  induction items with
  | nil => intro st; rfl
  | cons it its ih => intro st; simp only [List.foldl_cons]; rw [ih, itemStep_sectionLevels]

theorem valueItemAtoms_length_flat :
    ∀ (items : List (String × List String)),
      (items.flatMap valueItemAtoms).length = sumItemFuel items + items.length := by
  intro items
  induction items with
  | nil => simp [sumItemFuel]
  | cons it its ih =>
    simp [valueItemAtoms, sumItemFuel, ih]
    omega

theorem emit_setThreeCol (st : GState) (b : Bool) (d : List Event) :
    emit { st with threeColumnEnumValueTable := b } d
      = { emit st d with threeColumnEnumValueTable := b } := rfl

theorem doListLeft_value (rest : List Atom) (relative : Node) (st : GState)
    (hP : st.inPara = false) :
    doListLeft ⟨.listLeft, ["value"]⟩ rest relative st
      = { emit st (valueListHeaderEvents
            (isThreeColumnEnumValueTable (⟨.listLeft, ["value"]⟩ :: rest)) relative)
          with threeColumnEnumValueTable
            := isThreeColumnEnumValueTable (⟨.listLeft, ["value"]⟩ :: rest) } := by
  simp only [doListLeft, closeOpenPara, hP, if_false, Bool.false_eq_true, doListLeftKind]
  rw [if_neg (by decide), if_neg (by decide), if_pos (by decide)]
  by_cases hc : isThreeColumnEnumValueTable ((⟨AKind.listLeft, ["value"]⟩ : Atom) :: rest)
      ∧ relative.ntype = NType.enumT
  · rw [if_pos (by simpa using hc)]
    simp [valueListHeaderEvents, hc.1, hc.2, emit_setThreeCol, emit_emit, emit,
      List.append_assoc, thTextEvents]
  · rw [if_neg (by simpa using hc)]
    simp only [valueListHeaderEvents, if_neg hc]
    simp [emit_setThreeCol, emit_emit, emit, List.append_assoc, thTextEvents]

theorem doListRight_value (st : GState) :
    doListRight ⟨.listRight, ["value"]⟩ st = emit st [.endElem "informaltable", nl] := by
  simp [doListRight, Atom.string]

theorem generateText_valueList (env : Env) (relative : Node) (st : GState)
    (items : List (String × List String))
    (hEnum : relative.ntype = NType.enumT)
    (hThree : isThreeColumnEnumValueTable (valueListAtoms items) = true)
    (hL : st.inLink = false) (hP : st.inPara = false) (hstack : st.sectionLevels = []) :
    (generateText env (valueListAtoms items) relative st).2.events
      = st.events ++ (valueListHeaderEvents true relative
          ++ (itemsEvents env relative items ++ [.endElem "informaltable", nl])) := by
  simp only [generateText, valueListAtoms]
  rw [show ((⟨AKind.listLeft, ["value"]⟩ : Atom)
        :: (items.flatMap valueItemAtoms ++ [⟨AKind.listRight, ["value"]⟩])).length + 1
      = (sumItemFuel items + (items.length + 2)) + 1
    from by
      rw [List.length_cons, List.length_append, valueItemAtoms_length_flat]
      simp
      omega]
  simp only [genListF]
  rw [if_pos trivial]
  simp only [generateAtom]
  rw [doListLeft_value _ _ _ (by simp [hP])]
  rw [show (⟨AKind.listLeft, ["value"]⟩ : Atom)
        :: (items.flatMap valueItemAtoms ++ [⟨AKind.listRight, ["value"]⟩])
      = valueListAtoms items from rfl]
  rw [hThree]
  simp only [List.drop_zero]
  rw [genListF_valueItems env relative hEnum items (items.length + 2) _ _ _ rfl (by simp [hL])]
  rw [show items.length + 2 = (items.length + 1) + 1 from by omega]
  simp only [genListF]
  rw [if_pos trivial]
  simp only [generateAtom]
  rw [doListRight_value]
  rw [closeTextSections_events]
  simp [foldl_itemStep_events, foldl_itemStep_sectionLevels, hstack, sectionCloseEvents,
    emit, List.append_assoc]

theorem rcc_neutral_run : ∀ (A : List Event), (∀ e ∈ A, rowNeutral e = true) →
    ∀ (X : List Event) (acc : Option Nat), rowCellCounts (A ++ X) acc = rowCellCounts X acc := by
  intro A
  induction A with
  | nil => intro _ X acc; rfl
  | cons e A ih =>
    intro h X acc
    have he := h e (List.mem_cons_self _ _)
    have hA : ∀ x ∈ A, rowNeutral x = true := fun x hx => h x (List.mem_cons_of_mem _ hx)
    simp only [rowNeutral, Bool.and_eq_true, Bool.not_eq_true'] at he
    rcases acc with _ | k
    · simp only [List.cons_append, rowCellCounts]
      rw [if_neg (by simp [he.1.1])]
      exact ih hA X none
    · simp only [List.cons_append, rowCellCounts]
      rw [if_neg (beq_eq_false_iff_ne.mp he.2)]
      rw [if_neg (by simp [he.1.2])]
      exact ih hA X (some k)

theorem gev_neutral (env : Env) (nm : String) (rel : Node) :
    ∀ e ∈ generateEnumValueEvents env nm rel, rowNeutral e = true := by
  intro e he
  by_cases h : rel.ntype = NType.enumT
  · rw [generateEnumValueEvents, if_neg (not_not_intro h)] at he
    simp only [List.append_assoc, List.cons_append, List.nil_append] at he
    rcases List.mem_cons.mp he with rfl | he
    · rfl
    rcases List.mem_append.mp he with he | he
    · rcases List.mem_flatMap.mp he with ⟨p, hp, hpe⟩
      simp only [synopsisNameEvents, List.mem_append, List.mem_cons,
        List.not_mem_nil, or_false] at hpe
      rcases hpe with (h2|h2|h2|h2|h2|h2|h2)|h2 <;> subst h2 <;> rfl
    · rcases List.mem_cons.mp he with rfl | he
      · rfl
      rcases List.mem_cons.mp he with rfl | he
      · rfl
      · exact absurd he (List.not_mem_nil _)
  · rw [generateEnumValueEvents, if_pos h] at he
    rcases List.mem_singleton.mp he with rfl
    rfl

theorem vce_neutral (rel : Node) (nm : String) :
    ∀ e ∈ valueCellEvents rel nm, rowNeutral e = true := by
  intro e he
  rw [valueCellEvents] at he
  by_cases h : itemValue rel nm = ""
  · rw [if_pos h] at he
    rcases List.mem_singleton.mp he with rfl
    rfl
  · rw [if_neg h] at he
    rcases List.mem_cons.mp he with rfl | he
    · rfl
    rcases List.mem_cons.mp he with rfl | he
    · rfl
    rcases List.mem_singleton.mp he with rfl
    rfl

theorem chars_neutral (l : List String) :
    ∀ e ∈ l.map (fun s => Event.chars s), rowNeutral e = true := by
  intro e he
  rcases List.mem_map.mp he with ⟨s, _, rfl⟩
  rfl

theorem rcc_header (relative : Node) (hEnum : relative.ntype = NType.enumT) (X : List Event) :
    rowCellCounts (valueListHeaderEvents true relative ++ X) none = 3 :: rowCellCounts X none := by
  simp [valueListHeaderEvents, hEnum, thTextEvents, nl, rowCellCounts, isRowOpen, isCellOpen,
    List.cons_append, List.append_assoc]

theorem rcc_skip_none (e : Event) (h : isRowOpen e = false) (rest : List Event) :
    rowCellCounts (e :: rest) none = rowCellCounts rest none := by
  simp only [rowCellCounts, h, if_false, Bool.false_eq_true]

theorem rcc_open (e : Event) (h : isRowOpen e = true) (rest : List Event) :
    rowCellCounts (e :: rest) none = rowCellCounts rest (some 0) := by
  simp only [rowCellCounts, h, if_true]

theorem rcc_close (rest : List Event) (k : Nat) :
    rowCellCounts (.endElem "tr" :: rest) (some k) = k :: rowCellCounts rest none := by
  simp [rowCellCounts]

theorem rcc_cell (e : Event) (h1 : ¬(e = .endElem "tr")) (h2 : isCellOpen e = true)
    (rest : List Event) (k : Nat) :
    rowCellCounts (e :: rest) (some k) = rowCellCounts rest (some (k + 1)) := by
  simp only [rowCellCounts, if_neg h1, h2, if_true]

theorem rcc_skip_some (e : Event) (h1 : ¬(e = .endElem "tr")) (h2 : isCellOpen e = false)
    (rest : List Event) (k : Nat) :
    rowCellCounts (e :: rest) (some k) = rowCellCounts rest (some k) := by
  simp only [rowCellCounts, if_neg h1, h2, if_false, Bool.false_eq_true]

theorem rcc_item (env : Env) (relative : Node) (it : String × List String) (X : List Event) :
    rowCellCounts (valueItemEvents env relative it ++ X) none = 3 :: rowCellCounts X none := by
  obtain ⟨nm, desc⟩ := it
  rcases desc with _ | ⟨d, ds⟩
  · simp only [valueItemEvents, List.isEmpty_nil, if_true, List.map_nil, List.append_assoc,
      List.cons_append, List.nil_append]
    rw [rcc_open _ (by decide)]
    rw [rcc_skip_some _ (by decide) (by decide)]
    rw [rcc_cell _ (by decide) (by decide)]
    rw [rcc_skip_some _ (by decide) (by decide)]
    rw [rcc_skip_some _ (by decide) (by decide)]
    rw [rcc_neutral_run _ (gev_neutral env nm relative)]
    rw [rcc_skip_some _ (by decide) (by decide)]
    rw [rcc_skip_some _ (by decide) (by decide)]
    rw [rcc_skip_some _ (by decide) (by decide)]
    rw [rcc_skip_some _ (by decide) (by decide)]
    rw [rcc_cell _ (by decide) (by decide)]
    rw [rcc_neutral_run _ (vce_neutral relative nm)]
    rw [rcc_skip_some _ (by decide) (by decide)]
    rw [rcc_skip_some _ (by decide) (by decide)]
    rw [rcc_cell _ (by decide) (by decide)]
    rw [rcc_skip_some _ (by decide) (by decide)]
    rw [rcc_close]
    rw [rcc_skip_none _ (by decide)]
  · simp only [valueItemEvents, List.isEmpty_cons, if_false, List.map_cons, List.append_assoc,
      List.cons_append, List.nil_append, Bool.false_eq_true]
    rw [rcc_open _ (by decide)]
    rw [rcc_skip_some _ (by decide) (by decide)]
    rw [rcc_cell _ (by decide) (by decide)]
    rw [rcc_skip_some _ (by decide) (by decide)]
    rw [rcc_skip_some _ (by decide) (by decide)]
    rw [rcc_neutral_run _ (gev_neutral env nm relative)]
    rw [rcc_skip_some _ (by decide) (by decide)]
    rw [rcc_skip_some _ (by decide) (by decide)]
    rw [rcc_skip_some _ (by decide) (by decide)]
    rw [rcc_skip_some _ (by decide) (by decide)]
    rw [rcc_cell _ (by decide) (by decide)]
    rw [rcc_neutral_run _ (vce_neutral relative nm)]
    rw [rcc_skip_some _ (by decide) (by decide)]
    rw [rcc_skip_some _ (by decide) (by decide)]
    rw [rcc_cell _ (by decide) (by decide)]
    rw [rcc_skip_some _ (by decide) (by decide)]
    rw [show Event.chars d :: (List.map (fun s => Event.chars s) ds
          ++ (Event.endElem "td" :: nl :: Event.endElem "tr" :: nl :: X))
        = List.map (fun s => Event.chars s) (d :: ds)
          ++ (Event.endElem "td" :: nl :: Event.endElem "tr" :: nl :: X) from rfl]
    rw [rcc_neutral_run _ (chars_neutral (d :: ds))]
    rw [rcc_skip_some _ (by decide) (by decide)]
    rw [rcc_skip_some _ (by decide) (by decide)]
    rw [rcc_close]
    rw [rcc_skip_none _ (by decide)]

theorem rcc_items (env : Env) (relative : Node) :
    ∀ (items : List (String × List String)) (X : List Event),
      rowCellCounts (itemsEvents env relative items ++ X) none
        = List.replicate items.length 3 ++ rowCellCounts X none := by
  intro items
  induction items with
  | nil => intro X; simp [itemsEvents]
  | cons it its ih =>
    intro X
    simp only [itemsEvents, List.flatMap_cons, List.append_assoc]
    rw [show itemsEvents env relative its = its.flatMap (valueItemEvents env relative) from rfl] at ih
    rw [rcc_item, ih]
    simp [List.replicate_succ]

/-- C5: in a three-column enum value list with K items every emitted table row
has exactly 3 cells, an empty item still yields a structurally valid (empty)
description cell, and an identifier with no recorded literal value gets the
placeholder glyph in its value cell. -/
theorem c5_value_list_column_stability (env : Env) (relative : Node) (st : GState)
    (items : List (String × List String))
    (hEnum : relative.ntype = NType.enumT)
    (hThree : isThreeColumnEnumValueTable (valueListAtoms items) = true)
    (hL : st.inLink = false) (hP : st.inPara = false) (hstack : st.sectionLevels = []) :
    (generateText env (valueListAtoms items) relative st).2.events
      = st.events ++ (valueListHeaderEvents true relative
          ++ (itemsEvents env relative items ++ [.endElem "informaltable", nl]))
    ∧ rowCellCounts (valueListHeaderEvents true relative
          ++ (itemsEvents env relative items ++ [.endElem "informaltable", nl])) none
        = List.replicate (items.length + 1) 3
    ∧ ∀ it ∈ items, itemValue relative it.1 = ""
        → Event.chars "?" ∈ (generateText env (valueListAtoms items) relative st).2.events := by
  have hev := generateText_valueList env relative st items hEnum hThree hL hP hstack
  refine ⟨hev, ?_, ?_⟩
  · rw [rcc_header relative hEnum, rcc_items]
    rw [show rowCellCounts [Event.endElem "informaltable", nl] none = [] from rfl]
    simp [List.replicate_succ]
  · intro it hit hval
    rw [hev]
    have : Event.chars "?" ∈ valueItemEvents env relative it := by
      simp only [valueItemEvents, valueCellEvents, hval, if_pos]
      simp
    simp only [List.mem_append, itemsEvents, List.mem_flatMap]
    exact Or.inr (Or.inr (Or.inl ⟨it, hit, this⟩))

/-- Witness for c5_value_list_column_stability on a one-item list. -/
theorem c5_value_list_column_stability_witness :
    rowCellCounts (valueListHeaderEvents true nodeEnum
        ++ (itemsEvents envZero nodeEnum [("A", ["x"])] ++ [.endElem "informaltable", nl])) none
      = List.replicate 2 3 :=
  (c5_value_list_column_stability envZero nodeEnum initSt [("A", ["x"])]
    rfl (by decide) rfl rfl rfl).2.1
end DocBook
